import Mathlib

/-!
Verification of the SDS field-extraction engine (`src/sds_parser.py`).

The Python module is shallowly embedded:

* text is `List Char` (`String` at the API boundary);
* the regular expressions of the pattern catalog are translated, pattern by
  pattern, into a small regex AST (`RE`) whose backtracking matcher `mtch`
  mirrors Python `re` semantics for exactly the constructs the catalog uses
  (case-insensitive literals, character classes, greedy bounded/unbounded
  repetition of single-character classes, alternation, optional parts,
  capturing groups, multiline `^`/`$`, and `\b`);
* the engine is written in continuation-passing style with structural
  recursion only, so every definition evaluates inside the kernel;
* character classes (`\s`, `\d`, `\w`) are modelled over their ASCII meaning
  plus the common Unicode whitespace code points; all inputs considered by
  the claims are ASCII;
* `datetime.strptime`/`strftime` are modelled for the five formats of
  `DATE_FORMATS_IN` following CPython `_strptime` (each directive is a
  regular expression such as `3[01]|[12]\d|0[1-9]|[1-9]` for `%d`, the match
  is anchored and must consume the whole string, and building the `datetime`
  validates the calendar date); `strftime("%d/%m/%Y")` renders day and month
  zero-padded to two digits and the year zero-padded to four digits;
* the file system used by `append_record_to_csv` is modelled as the parsed
  row contents of the destination (`none` = the file does not exist).
-/

/-- Code points Python treats as whitespace (`str.strip`, `\s` of `re`). -/
def isPySpace (c : Char) : Bool :=
  decide (c.toNat = 32 ∨ (9 ≤ c.toNat ∧ c.toNat ≤ 13) ∨
    (28 ≤ c.toNat ∧ c.toNat ≤ 31) ∨ c.toNat = 133 ∨ c.toNat = 160 ∨
    c.toNat = 5760 ∨ (8192 ≤ c.toNat ∧ c.toNat ≤ 8202) ∨ c.toNat = 8232 ∨
    c.toNat = 8233 ∨ c.toNat = 8239 ∨ c.toNat = 8287 ∨ c.toNat = 12288)

/-- ASCII decimal digit (`\d` over the inputs considered). -/
def isDigitC (c : Char) : Bool :=
  decide (48 ≤ c.toNat ∧ c.toNat ≤ 57)

/-- Word character for `\b` (ASCII letters, digits, underscore). -/
def isWordC (c : Char) : Bool :=
  decide ((48 ≤ c.toNat ∧ c.toNat ≤ 57) ∨ (65 ≤ c.toNat ∧ c.toNat ≤ 90) ∨
    (97 ≤ c.toNat ∧ c.toNat ≤ 122) ∨ c.toNat = 95)

/-- ASCII lower-casing of a single code point, as a `Nat` map. -/
def toLowerN (n : Nat) : Nat :=
  if 65 ≤ n ∧ n ≤ 90 then n + 32 else n

/-- Character comparison; `ci = true` is the `re.I` (ASCII) folding. -/
def charEq (ci : Bool) (l c : Char) : Bool :=
  if ci then decide (toLowerN l.toNat = toLowerN c.toNat) else decide (l = c)

/-- Python `str.lower()` (ASCII range). -/
def pyLower (l : List Char) : List Char :=
  l.map fun c => if 65 ≤ c.toNat ∧ c.toNat ≤ 90 then Char.ofNat (c.toNat + 32) else c

/-- Python `str.upper()` (ASCII range). -/
def pyUpper (l : List Char) : List Char :=
  l.map fun c => if 97 ≤ c.toNat ∧ c.toNat ≤ 122 then Char.ofNat (c.toNat - 32) else c

/-- Python `str.strip()` with no arguments: drop whitespace at both ends. -/
def pyStrip (l : List Char) : List Char :=
  (((l.dropWhile isPySpace).reverse).dropWhile isPySpace).reverse

/-- Trailing-junk character class of `find_first`: `[\s;:]`. -/
def isJunk (c : Char) : Bool :=
  isPySpace c || decide (c = ';') || decide (c = ':')

/-- Model of `re.sub(r"[\s;:]+$", "", value)`.  Because `\n` itself belongs
to the class `[\s;:]`, a match of `[\s;:]+$` ending before a trailing
newline always extends through that newline, so the substitution removes
exactly the maximal junk suffix. -/
def pyRstripJunk (l : List Char) : List Char :=
  ((l.reverse).dropWhile isJunk).reverse

/-- Model of `normalize_whitespace`, i.e. `re.sub(r"[\t ]+", " ", txt)`:
the flag records whether the previous character belonged to the class, so a
run collapses to a single ordinary space. -/
def nwAux : Bool → List Char → List Char
  | _, [] => []
  | prevT, c :: rest =>
    if c.toNat = 9 ∨ c.toNat = 160 then
      if prevT then nwAux true rest else ' ' :: nwAux true rest
    else c :: nwAux false rest

/-- `normalize_whitespace(txt)` from the source. -/
def normalize_whitespace (l : List Char) : List Char :=
  nwAux false l

/-- Python substring test `needle in hay`. -/
def containsSub (hay needle : List Char) : Bool :=
  (List.range (hay.length + 1)).any fun i => needle.isPrefixOf (hay.drop i)

/- ------------------------------------------------------------------ -/
/- The regex engine.                                                   -/
/- ------------------------------------------------------------------ -/

/-- Regex AST covering exactly the constructs used by `PATTERNS` and the
inline `re.search`/`re.sub` patterns of `sds_parser.py`.  Repetition is
restricted to single-character classes (`\s*`, `.+`, `\d{2,4}`, ...), which
is all the source patterns use, so the matcher terminates structurally. -/
inductive RE where
  | eps : RE
  | atom (p : Char → Bool) : RE
  | lit (ci : Bool) (s : List Char) : RE
  | cat (a b : RE) : RE
  | alt (a b : RE) : RE
  | opt (a : RE) : RE
  | rep (p : Char → Bool) (lo : Nat) (hi : Option Nat) : RE
  | group (i : Nat) (a : RE) : RE
  | bol : RE
  | eol : RE
  | wordB : RE

/-- Captured spans: (group index, start position, end position). -/
abbrev Caps := List (Nat × Nat × Nat)

/-- Matcher continuation: previous character, remaining text, position,
captures so far. -/
abbrev MCont := Option Char → List Char → Nat → Caps → Option (Nat × Caps)

/-- Match a literal (case-insensitively when `ci`), returning the rest. -/
def litMatch (ci : Bool) : List Char → List Char → Option (List Char)
  | [], cs => some cs
  | _ :: _, [] => none
  | l :: ls, c :: cs => if charEq ci l c then litMatch ci ls cs else none

/-- Previous character after consuming the matched literal prefix. -/
def litPrev (prev : Option Char) (s cs : List Char) : Option Char :=
  if s.isEmpty then prev else (cs.take s.length).getLast?

/-- Length of the maximal prefix run satisfying `p`. -/
def countRun (p : Char → Bool) : List Char → Nat
  | [] => 0
  | c :: rest => if p c then countRun p rest + 1 else 0

/-- Previous character after consuming `j` characters of `cs`. -/
def repPrev (prev : Option Char) (cs : List Char) (j : Nat) : Option Char :=
  if j = 0 then prev else (cs.take j).getLast?

/-- Greedy repetition: try the longest candidate first and backtrack down
to `lo`, exactly as Python `re` does for `X{lo,hi}` with a greedy `X`. -/
def repTry (k : MCont) (lo : Nat) (prev : Option Char) (cs : List Char)
    (pos : Nat) (caps : Caps) : Nat → Option (Nat × Caps)
  | 0 => if lo = 0 then k prev cs pos caps else none
  | j + 1 =>
    if lo ≤ j + 1 then
      match k (repPrev prev cs (j + 1)) (cs.drop (j + 1)) (pos + (j + 1)) caps with
      | some res => some res
      | none => repTry k lo prev cs pos caps j
    else none

/-- Upper bound of candidate repetition counts at the current position. -/
def repMax (p : Char → Bool) (hi : Option Nat) (cs : List Char) : Nat :=
  match hi with
  | none => countRun p cs
  | some h => min (countRun p cs) h

/-- Word-character test on an optional character (string edge = no word). -/
def isWordO : Option Char → Bool
  | none => false
  | some c => isWordC c

/-- The backtracking matcher, continuation-passing.  Alternatives are tried
left first, repetition longest first; anchors `^`/`$` use their `re.M`
semantics (only patterns compiled with `re.M` use them in the source). -/
def mtch : RE → Option Char → List Char → Nat → Caps → MCont → Option (Nat × Caps)
  | .eps, prev, cs, pos, caps, k => k prev cs pos caps
  | .atom p, _, cs, pos, caps, k =>
    match cs with
    | [] => none
    | c :: rest => if p c then k (some c) rest (pos + 1) caps else none
  | .lit ci s, prev, cs, pos, caps, k =>
    match litMatch ci s cs with
    | none => none
    | some rest => k (litPrev prev s cs) rest (pos + s.length) caps
  | .cat a b, prev, cs, pos, caps, k =>
    mtch a prev cs pos caps fun p2 c2 q2 g2 => mtch b p2 c2 q2 g2 k
  | .alt a b, prev, cs, pos, caps, k =>
    match mtch a prev cs pos caps k with
    | some res => some res
    | none => mtch b prev cs pos caps k
  | .opt a, prev, cs, pos, caps, k =>
    match mtch a prev cs pos caps k with
    | some res => some res
    | none => k prev cs pos caps
  | .rep p lo hi, prev, cs, pos, caps, k =>
    repTry k lo prev cs pos caps (repMax p hi cs)
  | .group i a, prev, cs, pos, caps, k =>
    mtch a prev cs pos caps fun p2 c2 q2 g2 => k p2 c2 q2 ((i, pos, q2) :: g2)
  | .bol, prev, cs, pos, caps, k =>
    if pos = 0 || prev == some '\n' then k prev cs pos caps else none
  | .eol, prev, cs, pos, caps, k =>
    if cs.isEmpty || cs.head? == some '\n' then k prev cs pos caps else none
  | .wordB, prev, cs, pos, caps, k =>
    if isWordO prev != isWordO cs.head? then k prev cs pos caps else none

/-- `re.search`: try each start position from the left; the first position
admitting a match wins.  Returns (start, end, captures). -/
def searchAux (r : RE) : Option Char → List Char → Nat → Option (Nat × Nat × Caps)
  | prev, cs, pos =>
    match mtch r prev cs pos [] (fun _ _ q2 g2 => some (q2, g2)) with
    | some (en, caps) => some (pos, en, caps)
    | none =>
      match cs with
      | [] => none
      | c :: rest => searchAux r (some c) rest (pos + 1)

/-- A compiled pattern: the AST plus its number of capturing groups. -/
structure PyPattern where
  re : RE
  ngroups : Nat

/-- A Python `re.Match`: `group(0)` and the list `groups()` (a group that
did not participate in the match is `none`). -/
structure PyMatch where
  g0 : List Char
  gs : List (Option (List Char))
deriving DecidableEq

/-- First recorded span for a group index (later bindings are pushed in
front, so this is the binding of the successful path). -/
def lookupCap : Caps → Nat → Option (Nat × Nat)
  | [], _ => none
  | (j, s, e) :: rest, i => if i = j then some (s, e) else lookupCap rest i

/-- `pattern.search(text)`. -/
def pysearch (p : PyPattern) (text : List Char) : Option PyMatch :=
  match searchAux p.re none text 0 with
  | none => none
  | some (st, en, caps) =>
    some { g0 := (text.drop st).take (en - st),
           gs := (List.range p.ngroups).map fun i =>
             (lookupCap caps (i + 1)).map fun se =>
               (text.drop se.1).take (se.2 - se.1) }

/- ------------------------------------------------------------------ -/
/- Syntactic bounds on a regex, used to reason about captured groups.  -/
/- ------------------------------------------------------------------ -/

/-- Addition on optional upper bounds (`none` = unbounded). -/
def optAdd : Option Nat → Option Nat → Option Nat
  | some a, some b => some (a + b)
  | _, _ => none

/-- Maximum of optional upper bounds (`none` = unbounded). -/
def optMax : Option Nat → Option Nat → Option Nat
  | some a, some b => some (max a b)
  | _, _ => none

/-- `n` respects the optional upper bound. -/
def maxOK : Option Nat → Nat → Prop
  | none, _ => True
  | some h, n => n ≤ h

/-- Over-approximation of the characters a regex can consume. -/
def reChars : RE → Char → Bool
  | .eps => fun _ => false
  | .atom p => p
  | .lit ci s => fun c => s.any fun l => charEq ci l c
  | .cat a b => fun c => reChars a c || reChars b c
  | .alt a b => fun c => reChars a c || reChars b c
  | .opt a => reChars a
  | .rep p _ _ => p
  | .group _ a => reChars a
  | .bol => fun _ => false
  | .eol => fun _ => false
  | .wordB => fun _ => false

/-- Minimal number of characters a match of the regex consumes. -/
def reMin : RE → Nat
  | .eps => 0
  | .atom _ => 1
  | .lit _ s => s.length
  | .cat a b => reMin a + reMin b
  | .alt a b => min (reMin a) (reMin b)
  | .opt _ => 0
  | .rep _ lo _ => lo
  | .group _ a => reMin a
  | .bol => 0
  | .eol => 0
  | .wordB => 0

/-- Maximal number of characters a match of the regex consumes. -/
def reMax : RE → Option Nat
  | .eps => some 0
  | .atom _ => some 1
  | .lit _ s => some s.length
  | .cat a b => optAdd (reMax a) (reMax b)
  | .alt a b => optMax (reMax a) (reMax b)
  | .opt a => reMax a
  | .rep _ _ hi => hi
  | .group _ a => reMax a
  | .bol => some 0
  | .eol => some 0
  | .wordB => some 0

/-- What a span captured for group `i` can look like: it was consumed by
the body of an occurrence of group `i`, so its length lies between the
body's bounds and its characters in the body's character set. -/
def capOK : RE → Nat → List Char → Prop
  | .cat a b, i, s => capOK a i s ∨ capOK b i s
  | .alt a b, i, s => capOK a i s ∨ capOK b i s
  | .opt a, i, s => capOK a i s
  | .group j a, i, s =>
      (i = j ∧ reMin a ≤ s.length ∧ maxOK (reMax a) s.length ∧
        s.all (reChars a) = true) ∨ capOK a i s
  | _, _, _ => False

/-- Group indices that participate in every successful match. -/
def mustCap : RE → Nat → Bool
  | .cat a b, i => mustCap a i || mustCap b i
  | .alt a b, i => mustCap a i && mustCap b i
  | .group j a, i => decide (i = j) || mustCap a i
  | .opt _, _ => false
  | _, _ => false

/- ------------------------------------------------------------------ -/
/- The pattern catalog (`PATTERNS` of `sds_parser.py`).                -/
/- ------------------------------------------------------------------ -/

/-- Sequence a list of regexes (concatenation). -/
def seqL : List RE → RE
  | [] => .eps
  | r :: rs => .cat r (seqL rs)

/-- Class `.` outside `re.S`: anything but a newline. -/
def notNL (c : Char) : Bool :=
  decide (c ≠ '\n')

/-- Class `.` under `re.S`: any character. -/
def anyCh (_ : Char) : Bool :=
  true

/-- Class `[/\-]`. -/
def slashDash (c : Char) : Bool :=
  decide (c = '/') || decide (c = '-')

/-- Class `[:\-]`. -/
def colonDash (c : Char) : Bool :=
  decide (c = ':') || decide (c = '-')

/-- Class `[0-9A-Za-z\.]`. -/
def alnumDot (c : Char) : Bool :=
  decide ((48 ≤ c.toNat ∧ c.toNat ≤ 57) ∨ (65 ≤ c.toNat ∧ c.toNat ≤ 90) ∨
    (97 ≤ c.toNat ∧ c.toNat ≤ 122) ∨ c = '.')

/-- Letter `I` under `re.I`. -/
def iLetter (c : Char) : Bool :=
  decide (c = 'I') || decide (c = 'i')

/-- Class `[s]` (and the optional `s` of `Goods?`) under `re.I`. -/
def sLetter (c : Char) : Bool :=
  decide (c = 's') || decide (c = 'S')

/-- `\s*`. -/
def wsStar : RE := .rep isPySpace 0 none

/-- `\s+`. -/
def wsPlus : RE := .rep isPySpace 1 none

/-- `[:\-]?`. -/
def optColonDash : RE := .opt (.atom colonDash)

/-- `(.+)` as group 1. -/
def dotPlusG1 : RE := .group 1 (.rep notNL 1 none)

/-- `Product Identifier\s*[:\-]?\s*(.+)` with `re.I`. -/
def reProductName1 : PyPattern :=
  ⟨seqL [.lit true "Product Identifier".toList, wsStar, optColonDash, wsStar, dotPlusG1], 1⟩

/-- `^\s*Product Name\s*[:\-]?\s*(.+)$` with `re.I | re.M`. -/
def reProductName2 : PyPattern :=
  ⟨seqL [.bol, wsStar, .lit true "Product Name".toList, wsStar, optColonDash, wsStar,
    dotPlusG1, .eol], 1⟩

/-- `^\s*Trade Name\s*[:\-]?\s*(.+)$` with `re.I | re.M`. -/
def reProductName3 : PyPattern :=
  ⟨seqL [.bol, wsStar, .lit true "Trade Name".toList, wsStar, optColonDash, wsStar,
    dotPlusG1, .eol], 1⟩

/-- `Manufacturer(?:/Supplier)?\s*[:\-]?\s*(.+)` with `re.I`. -/
def reVendor1 : PyPattern :=
  ⟨seqL [.lit true "Manufacturer".toList, .opt (.lit true "/Supplier".toList), wsStar,
    optColonDash, wsStar, dotPlusG1], 1⟩

/-- `Company Name\s*[:\-]?\s*(.+)` with `re.I`. -/
def reVendor2 : PyPattern :=
  ⟨seqL [.lit true "Company Name".toList, wsStar, optColonDash, wsStar, dotPlusG1], 1⟩

/-- `Supplier\s*[:\-]?\s*(.+)` with `re.I`. -/
def reVendor3 : PyPattern :=
  ⟨seqL [.lit true "Supplier".toList, wsStar, optColonDash, wsStar, dotPlusG1], 1⟩

/-- `\d{1,2}[/\-]\d{1,2}[/\-]\d{2,4}`, the date part of the issue patterns. -/
def dateNum : RE :=
  seqL [.rep isDigitC 1 (some 2), .atom slashDash, .rep isDigitC 1 (some 2),
    .atom slashDash, .rep isDigitC 2 (some 4)]

/-- `(Revision|Issue|Date of issue|Version date)\s*[:\-]?\s*(\d{1,2}[/\-]\d{1,2}[/\-]\d{2,4})` with `re.I`. -/
def reIssueDate1 : PyPattern :=
  ⟨seqL [.group 1 (.alt (.lit true "Revision".toList) (.alt (.lit true "Issue".toList)
      (.alt (.lit true "Date of issue".toList) (.lit true "Version date".toList)))),
    wsStar, optColonDash, wsStar, .group 2 dateNum], 2⟩

/-- `(Prepared|Last revised)\s*[:\-]?\s*(\d{1,2}[/\-]\d{1,2}[/\-]\d{2,4})` with `re.I`. -/
def reIssueDate2 : PyPattern :=
  ⟨seqL [.group 1 (.alt (.lit true "Prepared".toList) (.lit true "Last revised".toList)),
    wsStar, optColonDash, wsStar, .group 2 dateNum], 2⟩

/-- `\b(?:Dangerous\s+Goods\s*)?Class(?:/Division)?\s*[:\-]?\s*([0-9A-Za-z\.]+)\b` with `re.I`. -/
def reDGClass : PyPattern :=
  ⟨seqL [.wordB, .opt (seqL [.lit true "Dangerous".toList, wsPlus, .lit true "Goods".toList, wsStar]),
    .lit true "Class".toList, .opt (.lit true "/Division".toList), wsStar, optColonDash,
    wsStar, .group 1 (.rep alnumDot 1 none), .wordB], 1⟩

/-- `\bUN\s*(\d{3,4})\b` with `re.I` (present in the catalog; not used by
`extract_fields`). -/
def reUNNumber : PyPattern :=
  ⟨seqL [.wordB, .lit true "UN".toList, wsStar, .group 1 (.rep isDigitC 3 (some 4)), .wordB], 1⟩

/-- `I{1,3}|II|III`, the capture body of the packing-group patterns. -/
def pgBody : RE :=
  .alt (.rep iLetter 1 (some 3)) (.alt (.lit true "II".toList) (.lit true "III".toList))

/-- `Packing\s+Group\s*[:\-]?\s*(I{1,3}|II|III)\b` with `re.I`. -/
def rePackingGroup : PyPattern :=
  ⟨seqL [.lit true "Packing".toList, wsPlus, .lit true "Group".toList, wsStar,
    optColonDash, wsStar, .group 1 pgBody, .wordB], 1⟩

/-- `Subsidiary Risk[s]?\s*[:\-]?\s*(.+)` with `re.I`. -/
def reSubsidiary : PyPattern :=
  ⟨seqL [.lit true "Subsidiary Risk".toList, .opt (.atom sLetter), wsStar, optColonDash,
    wsStar, dotPlusG1], 1⟩

/-- `[0-9]{2,7}-[0-9]{2}-[0-9]`, the CAS number shape. -/
def casNum : RE :=
  seqL [.rep isDigitC 2 (some 7), .lit false "-".toList, .rep isDigitC 2 (some 2),
    .lit false "-".toList, .rep isDigitC 1 (some 1)]

/-- `\bCAS(?: No\.| Number)?\s*[:\-]?\s*([0-9]{2,7}-[0-9]{2}-[0-9])` with `re.I`. -/
def reCASNumber : PyPattern :=
  ⟨seqL [.wordB, .lit true "CAS".toList,
    .opt (.alt (.lit true " No.".toList) (.lit true " Number".toList)), wsStar,
    optColonDash, wsStar, .group 1 casNum], 1⟩

/-- `Yes|No` capture body. -/
def yesNo : RE := .alt (.lit true "Yes".toList) (.lit true "No".toList)

/-- `Hazardous Substance\s*[:\-]?\s*(Yes|No)\b` with `re.I`. -/
def reHazSub : PyPattern :=
  ⟨seqL [.lit true "Hazardous Substance".toList, wsStar, optColonDash, wsStar,
    .group 1 yesNo, .wordB], 1⟩

/-- `Dangerous Goods?\s*[:\-]?\s*(Yes|No)\b` with `re.I`. -/
def reDGFlag : PyPattern :=
  ⟨seqL [.lit true "Dangerous Good".toList, .opt (.atom sLetter), wsStar, optColonDash,
    wsStar, .group 1 yesNo, .wordB], 1⟩

/-- `Section\s*2[^\n]*\n(.{0,800})` with `re.I | re.S`. -/
def reDescription : PyPattern :=
  ⟨seqL [.lit true "Section".toList, wsStar, .lit false "2".toList, .rep notNL 0 none,
    .lit false "\n".toList, .group 1 (.rep anyCh 0 (some 800))], 1⟩

/-- A rule as `find_first` consumes it: the `search` method of a compiled
pattern.  `find_first` and the Field Locator claim are stated over
arbitrary rule lists of this type. -/
abbrev SearchFun := List Char → Option PyMatch

/-- The `search` of a compiled pattern. -/
def PyPattern.searchF (p : PyPattern) : SearchFun :=
  fun cs => pysearch p cs

/-- `PATTERNS["product_name"]`. -/
def patterns_product_name : List SearchFun :=
  [reProductName1.searchF, reProductName2.searchF, reProductName3.searchF]

/-- `PATTERNS["vendor"]`. -/
def patterns_vendor : List SearchFun :=
  [reVendor1.searchF, reVendor2.searchF, reVendor3.searchF]

/-- `PATTERNS["issue_date"]`. -/
def patterns_issue_date : List SearchFun :=
  [reIssueDate1.searchF, reIssueDate2.searchF]

/-- `PATTERNS["dangerous_goods_class"]`. -/
def patterns_dangerous_goods_class : List SearchFun :=
  [reDGClass.searchF]

/-- `PATTERNS["un_number"]`. -/
def patterns_un_number : List SearchFun :=
  [reUNNumber.searchF]

/-- `PATTERNS["packing_group"]`. -/
def patterns_packing_group : List SearchFun :=
  [rePackingGroup.searchF]

/-- `PATTERNS["subsidiary_risks"]`. -/
def patterns_subsidiary_risks : List SearchFun :=
  [reSubsidiary.searchF]

/-- `PATTERNS["cas_number"]`. -/
def patterns_cas_number : List SearchFun :=
  [reCASNumber.searchF]

/-- `PATTERNS["hazardous_substance"]`. -/
def patterns_hazardous_substance : List SearchFun :=
  [reHazSub.searchF]

/-- `PATTERNS["dangerous_good"]`. -/
def patterns_dangerous_good : List SearchFun :=
  [reDGFlag.searchF]

/-- `PATTERNS["description_section2"]`. -/
def patterns_description_section2 : List SearchFun :=
  [reDescription.searchF]

/- ------------------------------------------------------------------ -/
/- The Field Locator (`find_first`).                                   -/
/- ------------------------------------------------------------------ -/

/-- `find_first(patterns, text)` from the source: try each pattern in
declared order; for the first one that matches, take the last truthy
(non-`None` and non-empty) captured group, or the whole span if there is
none, strip it, and remove the trailing `[\s;:]+` run. -/
def find_first : List SearchFun → List Char → Option (List Char)
  | [], _ => none
  | p :: ps, text =>
    match p text with
    | some m =>
      let groups := (m.gs.filterMap id).filter fun g => !g.isEmpty
      let value :=
        match groups.getLast? with
        | some g => pyStrip g
        | none => pyStrip m.g0
      some (pyRstripJunk value)
    | none => find_first ps text

/-- The last non-empty captured group of a match, as the specification
words it (scan the groups from the right for a non-empty capture). -/
def lastNonEmptyGroup (m : PyMatch) : Option (List Char) :=
  m.gs.reverse.findSome? fun og =>
    match og with
    | some g => if g.isEmpty then none else some g
    | none => none

/-- The Field Locator contract exactly as the specification words it:
iterate the ordered rules for the first whose pattern matches anywhere in
the text; select the last non-empty captured group if any group captured,
otherwise the whole matched span; strip surrounding whitespace and remove
any trailing run of whitespace/colon/semicolon characters; nothing when no
rule matches. -/
def locate_spec (pats : List SearchFun) (text : List Char) : Option (List Char) :=
  (pats.findSome? fun p => p text).map fun m =>
    let v :=
      match lastNonEmptyGroup m with
      | some g => g
      | none => m.g0
    List.rdropWhile isJunk (List.rdropWhile isPySpace (v.dropWhile isPySpace))

/- ------------------------------------------------------------------ -/
/- Date normalization (`parse_date`, `DATE_FORMATS_IN`).               -/
/- ------------------------------------------------------------------ -/

/-- Value of an ASCII digit character. -/
def dval (c : Char) : Nat :=
  c.toNat - 48

/-- `%d` of CPython `_strptime`: the regex `3[01]|[12]\d|0[1-9]|[1-9]`.
A valid 2-digit day is tried first; in every format of `DATE_FORMATS_IN`
the day directive is followed by a literal separator, which is not a
digit, so committing to the 2-digit branch is exactly the backtracking
behaviour of the compiled format regex. -/
def day2 (c1 c2 : Char) : Bool :=
  decide ((c1.toNat = 51 ∧ (c2.toNat = 48 ∨ c2.toNat = 49)) ∨
    ((c1.toNat = 49 ∨ c1.toNat = 50) ∧ 48 ≤ c2.toNat ∧ c2.toNat ≤ 57) ∨
    (c1.toNat = 48 ∧ 49 ≤ c2.toNat ∧ c2.toNat ≤ 57))

/-- `[1-9]`: the 1-digit day/month branch. -/
def day1 (c : Char) : Bool :=
  decide (49 ≤ c.toNat ∧ c.toNat ≤ 57)

/-- Consume a `%d` token. -/
def dayTok : List Char → Option (Nat × List Char)
  | c1 :: c2 :: rest =>
    if day2 c1 c2 then some (10 * dval c1 + dval c2, rest)
    else if day1 c1 then some (dval c1, c2 :: rest)
    else none
  | [c1] => if day1 c1 then some (dval c1, []) else none
  | [] => none

/-- `%m` of CPython `_strptime`: the regex `1[0-2]|0[1-9]|[1-9]`. -/
def mon2 (c1 c2 : Char) : Bool :=
  decide ((c1.toNat = 49 ∧ (c2.toNat = 48 ∨ c2.toNat = 49 ∨ c2.toNat = 50)) ∨
    (c1.toNat = 48 ∧ 49 ≤ c2.toNat ∧ c2.toNat ≤ 57))

/-- Consume a `%m` token. -/
def monTok : List Char → Option (Nat × List Char)
  | c1 :: c2 :: rest =>
    if mon2 c1 c2 then some (10 * dval c1 + dval c2, rest)
    else if day1 c1 then some (dval c1, c2 :: rest)
    else none
  | [c1] => if day1 c1 then some (dval c1, []) else none
  | [] => none

/-- `%y`: exactly two digits. -/
def y2Tok : List Char → Option (Nat × List Char)
  | c1 :: c2 :: rest =>
    if isDigitC c1 && isDigitC c2 then some (10 * dval c1 + dval c2, rest) else none
  | _ => none

/-- CPython's 2-digit-year rule: 0–68 map to 2000+, 69–99 to 1900+. -/
def century (v : Nat) : Nat :=
  if v ≤ 68 then 2000 + v else 1900 + v

/-- `%Y`: exactly four digits. -/
def y4Tok : List Char → Option (Nat × List Char)
  | c1 :: c2 :: c3 :: c4 :: rest =>
    if isDigitC c1 && isDigitC c2 && isDigitC c3 && isDigitC c4 then
      some (1000 * dval c1 + 100 * dval c2 + 10 * dval c3 + dval c4, rest)
    else none
  | _ => none

/-- A literal separator inside a format string. -/
def litTok (sep : Char) : List Char → Option (List Char)
  | c :: rest => if c = sep then some rest else none
  | [] => none

/-- Gregorian leap year. -/
def isLeap (y : Nat) : Bool :=
  decide (y % 4 = 0 ∧ (y % 100 ≠ 0 ∨ y % 400 = 0))

/-- Days in a month. -/
def daysInMonth (y m : Nat) : Nat :=
  if m = 2 then (if isLeap y then 29 else 28)
  else if m = 4 ∨ m = 6 ∨ m = 9 ∨ m = 11 then 30
  else 31

/-- Validity of `datetime(year, month, day)` (raises `ValueError`
otherwise): `MINYEAR ≤ y ≤ MAXYEAR` and a real calendar date. -/
def datetimeValid (y m d : Nat) : Bool :=
  decide (1 ≤ y) && decide (y ≤ 9999) && decide (1 ≤ m) && decide (m ≤ 12) &&
  decide (1 ≤ d) && decide (d ≤ daysInMonth y m)

/-- `strptime(s, "%d/%m/%Y")`: anchored match that must consume the whole
string ("unconverted data remains" otherwise); yields (year, month, day). -/
def fmt_dmY (cs : List Char) : Option (Nat × Nat × Nat) :=
  match dayTok cs with
  | none => none
  | some (d, r1) =>
    match litTok '/' r1 with
    | none => none
    | some r2 =>
      match monTok r2 with
      | none => none
      | some (m, r3) =>
        match litTok '/' r3 with
        | none => none
        | some r4 =>
          match y4Tok r4 with
          | some (y, []) => some (y, m, d)
          | _ => none

/-- `strptime(s, "%d-%m-%Y")`. -/
def fmt_dmY_hyphen (cs : List Char) : Option (Nat × Nat × Nat) :=
  match dayTok cs with
  | none => none
  | some (d, r1) =>
    match litTok '-' r1 with
    | none => none
    | some r2 =>
      match monTok r2 with
      | none => none
      | some (m, r3) =>
        match litTok '-' r3 with
        | none => none
        | some r4 =>
          match y4Tok r4 with
          | some (y, []) => some (y, m, d)
          | _ => none

/-- `strptime(s, "%d/%m/%y")`. -/
def fmt_dmy (cs : List Char) : Option (Nat × Nat × Nat) :=
  match dayTok cs with
  | none => none
  | some (d, r1) =>
    match litTok '/' r1 with
    | none => none
    | some r2 =>
      match monTok r2 with
      | none => none
      | some (m, r3) =>
        match litTok '/' r3 with
        | none => none
        | some r4 =>
          match y2Tok r4 with
          | some (v, []) => some (century v, m, d)
          | _ => none

/-- `strptime(s, "%Y-%m-%d")`. -/
def fmt_Ymd_hyphen (cs : List Char) : Option (Nat × Nat × Nat) :=
  match y4Tok cs with
  | none => none
  | some (y, r1) =>
    match litTok '-' r1 with
    | none => none
    | some r2 =>
      match monTok r2 with
      | none => none
      | some (m, r3) =>
        match litTok '-' r3 with
        | none => none
        | some r4 =>
          match dayTok r4 with
          | some (d, []) => some (y, m, d)
          | _ => none

/-- `strptime(s, "%m/%d/%Y")`. -/
def fmt_mdY (cs : List Char) : Option (Nat × Nat × Nat) :=
  match monTok cs with
  | none => none
  | some (m, r1) =>
    match litTok '/' r1 with
    | none => none
    | some r2 =>
      match dayTok r2 with
      | none => none
      | some (d, r3) =>
        match litTok '/' r3 with
        | none => none
        | some r4 =>
          match y4Tok r4 with
          | some (y, []) => some (y, m, d)
          | _ => none

/-- The `for fmt in DATE_FORMATS_IN` loop: the first format that both
matches the whole string and yields a constructible `datetime` wins; a
format that matches but names an invalid date raises `ValueError`, which
the loop catches before trying the next format. -/
def firstValidFormat : List (Option (Nat × Nat × Nat)) → Option (Nat × Nat × Nat)
  | [] => none
  | o :: rest =>
    match o with
    | some (y, m, d) =>
      if datetimeValid y m d then some (y, m, d) else firstValidFormat rest
    | none => firstValidFormat rest

/-- The format loop over
`DATE_FORMATS_IN = ["%d/%m/%Y", "%d-%m-%Y", "%d/%m/%y", "%Y-%m-%d", "%m/%d/%Y"]`. -/
def tryFormats (cs : List Char) : Option (Nat × Nat × Nat) :=
  firstValidFormat
    [fmt_dmY cs, fmt_dmY_hyphen cs, fmt_dmy cs, fmt_Ymd_hyphen cs, fmt_mdY cs]

/-- Two-digit zero-padded decimal rendering. -/
def pad2 (n : Nat) : List Char :=
  [Char.ofNat (48 + n / 10), Char.ofNat (48 + n % 10)]

/-- Four-digit zero-padded decimal rendering. -/
def pad4 (n : Nat) : List Char :=
  [Char.ofNat (48 + n / 1000), Char.ofNat (48 + n / 100 % 10),
   Char.ofNat (48 + n / 10 % 10), Char.ofNat (48 + n % 10)]

/-- `dt.strftime("%d/%m/%Y")`. -/
def renderDMY (y m d : Nat) : List Char :=
  pad2 d ++ '/' :: (pad2 m ++ '/' :: pad4 y)

/-- `(\d{1,2})/(\d{1,2})/(\d{2,4})`, the loose fallback of `parse_date`. -/
def reDateLoose : PyPattern :=
  ⟨seqL [.group 1 (.rep isDigitC 1 (some 2)), .lit false "/".toList,
    .group 2 (.rep isDigitC 1 (some 2)), .lit false "/".toList,
    .group 3 (.rep isDigitC 2 (some 4))], 3⟩

/-- `int()` of a digit string. -/
def digitsVal (l : List Char) : Nat :=
  l.foldl (fun a c => 10 * a + dval c) 0

/-- `raw.replace("-", "/")`. -/
def pyReplaceHyphen (l : List Char) : List Char :=
  l.map fun c => if c = '-' then '/' else c

/-- The body of `parse_date` on the cleaned string: the format loop, then
the first match of the loose regex with 2-digit-year expansion ("20" is
prefixed to the captured year string), then passthrough.  The wildcard
group arm is unreachable: all three groups of the loose pattern
participate in any match. -/
def pdCore (rc : List Char) : List Char :=
  match tryFormats rc with
  | some (y, m, d) => renderDMY y m d
  | none =>
    match pysearch reDateLoose rc with
    | some mt =>
      match mt.gs with
      | [some ds, some ms, some ys] =>
        let y := if ys.length = 2 then digitsVal ('2' :: '0' :: ys) else digitsVal ys
        let mo := digitsVal ms
        let d := digitsVal ds
        if datetimeValid y mo d then renderDMY y mo d else rc
      | _ => rc
    | none => rc

/-- `parse_date(raw)` from the source; `None` and `""` are falsy and
return `None`, everything else is stripped, has hyphens replaced by
slashes, and goes through `pdCore`. -/
def parse_date : Option String → Option String
  | none => none
  | some raw =>
    if raw = "" then none
    else some (String.mk (pdCore (pyReplaceHyphen (pyStrip raw.toList))))

/- ------------------------------------------------------------------ -/
/- Risk rating (`compute_risk_rating`).                                -/
/- ------------------------------------------------------------------ -/

/-- Association-list lookup; the Python dicts have pairwise distinct keys,
so this is `dict.get`. -/
def lookupTable : List (String × Nat) → String → Option Nat
  | [], _ => none
  | (k, v) :: rest, s => if s = k then some v else lookupTable rest s

/-- `cons_map` of `compute_risk_rating`. -/
def cons_map : List (String × Nat) :=
  [("insignificant", 1), ("minor", 2), ("moderate", 3), ("major", 4), ("severe", 5)]

/-- `lik_map` of `compute_risk_rating`. -/
def lik_map : List (String × Nat) :=
  [("rare", 1), ("unlikely", 2), ("possible", 3), ("likely", 4), ("almost certain", 5)]

/-- `compute_risk_rating(consequence, likelihood)` from the source. -/
def compute_risk_rating (consequence likelihood : Option String) : Option String :=
  match consequence, likelihood with
  | some c, some l =>
    if c = "" ∨ l = "" then none
    else
      match lookupTable cons_map (String.mk (pyLower (pyStrip c.toList))),
            lookupTable lik_map (String.mk (pyLower (pyStrip l.toList))) with
      | some cv, some lv =>
        let score := cv * lv
        if score ≤ 4 then some ("Low (" ++ toString score ++ ")")
        else if score ≤ 9 then some ("Medium (" ++ toString score ++ ")")
        else if score ≤ 16 then some ("High (" ++ toString score ++ ")")
        else some ("Extreme (" ++ toString score ++ ")")
      | _, _ => none
  | _, _ => none

/-- Risk rating exactly as the specification words it: trim and lowercase
the two words, match them against the fixed ordinal tables, and when both
match label the product score with the inclusive bands 1–4 Low, 5–9
Medium, 10–16 High, 17–25 Extreme, rendered `Label (score)`; an absent or
unrecognized input on either side yields no rating, never a default. -/
def risk_rating_spec (consequence likelihood : Option String) : Option String :=
  match consequence.bind (fun c => lookupTable cons_map (String.mk (pyLower (pyStrip c.toList)))),
        likelihood.bind (fun l => lookupTable lik_map (String.mk (pyLower (pyStrip l.toList)))) with
  | some cv, some lv =>
    let score := cv * lv
    if 1 ≤ score ∧ score ≤ 4 then some ("Low (" ++ toString score ++ ")")
    else if 5 ≤ score ∧ score ≤ 9 then some ("Medium (" ++ toString score ++ ")")
    else if 10 ≤ score ∧ score ≤ 16 then some ("High (" ++ toString score ++ ")")
    else if 17 ≤ score ∧ score ≤ 25 then some ("Extreme (" ++ toString score ++ ")")
    else none
  | _, _ => none

/- ------------------------------------------------------------------ -/
/- The data model and the assembler.                                   -/
/- ------------------------------------------------------------------ -/

/-- `ParsedRecord` from the source; unset optional fields are `none`,
`sds_available` defaults to the fixed affirmative value. -/
structure ParsedRecord where
  product_name : Option String := none
  vendor : Option String := none
  quantity : Option String := none
  location : Option String := none
  cas_number : Option String := none
  sds_available : String := "Yes"
  issue_date : Option String := none
  hazardous_substance : Option String := none
  dangerous_good : Option String := none
  dangerous_goods_class : Option String := none
  description : Option String := none
  packing_group : Option String := none
  subsidiary_risks : Option String := none
  consequence : Option String := none
  likelihood : Option String := none
  risk_rating : Option String := none
  swp_requirement : Option String := none
  comments_swp : Option String := none
  barcode : Option String := none
deriving DecidableEq

/-- Python truthiness of an optional string: `None` and `""` are falsy. -/
def pyFalsy : Option String → Bool
  | none => true
  | some s => decide (s = "")

/-- `ParsedRecord.to_csv_row` from the source: the nineteen fields in
declared order, unset rendered as the empty string (`x or ""`). -/
def ParsedRecord.to_csv_row (r : ParsedRecord) : List String :=
  [r.product_name.getD "", r.vendor.getD "", r.quantity.getD "", r.location.getD "",
   r.cas_number.getD "", r.sds_available, r.issue_date.getD "",
   r.hazardous_substance.getD "", r.dangerous_good.getD "",
   r.dangerous_goods_class.getD "", r.description.getD "", r.packing_group.getD "",
   r.subsidiary_risks.getD "", r.consequence.getD "", r.likelihood.getD "",
   r.risk_rating.getD "", r.swp_requirement.getD "", r.comments_swp.getD "",
   r.barcode.getD ""]

/-- `REGISTER_HEADERS` from the source. -/
def REGISTER_HEADERS : List String :=
  ["Product Name", "Vendor / Manufacturer", "Quantity", "Location", "CAS Number",
   "SDS Available", "Issue Date (DD/MM/YYYY)", "Hazardous Substance", "Dangerous Good",
   "Dangerous Goods Class", "Description", "Packing group", "Subsidiary Risk(s)",
   "Consequence", "Likelihood", "Risk Rating",
   "Safe Work Procedure (SWP) Requirement", "Comments/SWP", "Barcode"]

/-- `re.search(r"Not classified as Hazardous", text, re.I)`. -/
def reNotClassHaz : PyPattern :=
  ⟨.lit true "Not classified as Hazardous".toList, 0⟩

/-- `re.search(r"Classified as Hazardous|Hazardous according to", text, re.I)`. -/
def reClassHaz : PyPattern :=
  ⟨.alt (.lit true "Classified as Hazardous".toList)
    (.lit true "Hazardous according to".toList), 0⟩

/-- `re.search(r"Not classified as Dangerous Goods", text, re.I)`. -/
def reNotClassDG : PyPattern :=
  ⟨.lit true "Not classified as Dangerous Goods".toList, 0⟩

/-- `re.search(r"Classified as Dangerous Goods|Dangerous Goods according to", text, re.I)`. -/
def reClassDG : PyPattern :=
  ⟨.alt (.lit true "Classified as Dangerous Goods".toList)
    (.lit true "Dangerous Goods according to".toList), 0⟩

/-- `Packing\s+Group\s*(I{1,3}|II|III)\b` with `re.I`: the inference-pass
packing-group search (without the `[:\-]?` of the catalog pattern). -/
def rePackingGroup2 : PyPattern :=
  ⟨seqL [.lit true "Packing".toList, wsPlus, .lit true "Group".toList, wsStar,
    .group 1 pgBody, .wordB], 1⟩

/-- First statement block of `infer_flags`: the `hazardous_substance`
inference. -/
def inferHaz (record : ParsedRecord) (text_norm : List Char) : ParsedRecord :=
  if pyFalsy record.hazardous_substance then
    if (pysearch reNotClassHaz text_norm).isSome then
      { record with hazardous_substance := some "No" }
    else if (pysearch reClassHaz text_norm).isSome then
      { record with hazardous_substance := some "Yes" }
    else record
  else record

/-- Second statement block of `infer_flags`: the `dangerous_good`
inference (also inferred affirmative when a dangerous-goods class was
already found). -/
def inferDG (record : ParsedRecord) (text_norm : List Char) : ParsedRecord :=
  if pyFalsy record.dangerous_good then
    if (pysearch reNotClassDG text_norm).isSome then
      { record with dangerous_good := some "No" }
    else if (pysearch reClassDG text_norm).isSome || !pyFalsy record.dangerous_goods_class then
      { record with dangerous_good := some "Yes" }
    else record
  else record

/-- Third statement block of `infer_flags`: the `packing_group`
re-derivation, upper-casing the captured group.  The wildcard group arm is
unreachable (group 1 of the packing pattern always participates). -/
def inferPG (record : ParsedRecord) (text_norm : List Char) : ParsedRecord :=
  if pyFalsy record.packing_group then
    match pysearch rePackingGroup2 text_norm with
    | some mt =>
      match mt.gs with
      | [some g] => { record with packing_group := some (String.mk (pyUpper g)) }
      | _ => record
    | none => record
  else record

/-- `infer_flags(record, text_norm)` from the source; the in-place
mutation is modelled by returning the updated record, one statement block
after the other. -/
def infer_flags (record : ParsedRecord) (text_norm : List Char) : ParsedRecord :=
  inferPG (inferDG (inferHaz record text_norm) text_norm) text_norm

/-- Python `str.splitlines()` over the line-break code points, treating
`\r\n` as a single break. -/
def splitlinesAux (acc : List Char) : List Char → List (List Char)
  | [] => if acc.isEmpty then [] else [acc.reverse]
  | '\r' :: '\n' :: rest => acc.reverse :: splitlinesAux [] rest
  | c :: rest =>
    if c.toNat = 10 ∨ c.toNat = 13 ∨ c.toNat = 11 ∨ c.toNat = 12 ∨ c.toNat = 28 ∨
        c.toNat = 29 ∨ c.toNat = 30 ∨ c.toNat = 133 ∨ c.toNat = 8232 ∨ c.toNat = 8233 then
      acc.reverse :: splitlinesAux [] rest
    else splitlinesAux (c :: acc) rest

/-- `str.splitlines()`. -/
def pySplitlines (l : List Char) : List (List Char) :=
  splitlinesAux [] l

/-- `re.search(r"\bH\d{3}\b", l)` (case-sensitive: compiled without flags). -/
def reHCode : PyPattern :=
  ⟨seqL [.wordB, .lit false "H".toList, .rep isDigitC 3 (some 3), .wordB], 0⟩

/-- `re.search(r"(Danger|Warning)\b", l)` (case-sensitive). -/
def reSignal : PyPattern :=
  ⟨seqL [.group 1 (.alt (.lit false "Danger".toList) (.lit false "Warning".toList)),
    .wordB], 1⟩

/-- The `seen`-set deduplication loop of `extract_description`. -/
def dedupAux (seen : List (List Char)) : List (List Char) → List (List Char)
  | [] => []
  | s :: rest =>
    if s ∈ seen then dedupAux seen rest else s :: dedupAux (s :: seen) rest

/-- One match attempt of `\s*;\s*` at the current position: the greedy
whitespace run must be followed by `;` (whitespace never equals `;`, so no
shorter run can reach one), then trailing whitespace is consumed. -/
def semiAt (cs : List Char) : Option (List Char) :=
  match cs.dropWhile isPySpace with
  | ';' :: r2 => some (r2.dropWhile isPySpace)
  | _ => none

/-- `re.sub(r"\s*;\s*", "; ", desc)`: scan left to right, replace each
match, resume after it.  Every match consumes at least one character, so
the string length is enough fuel. -/
def subSemiAux : Nat → List Char → List Char
  | 0, l => l
  | _ + 1, [] => []
  | fuel + 1, c :: rest =>
    match semiAt (c :: rest) with
    | some leftover => ';' :: ' ' :: subSemiAux fuel leftover
    | none => c :: subSemiAux fuel rest

/-- `re.sub(r"\s*;\s*", "; ", desc)`. -/
def subSemi (l : List Char) : List Char :=
  subSemiAux l.length l

/-- Number of consecutive `"; "` repetitions at the head. -/
def countSemiSp : List Char → Nat
  | ';' :: ' ' :: rest => countSemiSp rest + 1
  | _ => 0

/-- `re.sub(r"(; ){2,}", "; ", desc)`: a greedy run of two or more `"; "`
repetitions collapses to one. -/
def subRep2Aux : Nat → List Char → List Char
  | 0, l => l
  | _ + 1, [] => []
  | fuel + 1, c :: rest =>
    let n := countSemiSp (c :: rest)
    if 2 ≤ n then ';' :: ' ' :: subRep2Aux fuel ((c :: rest).drop (2 * n))
    else c :: subRep2Aux fuel rest

/-- `re.sub(r"(; ){2,}", "; ", desc)`. -/
def subRep2 (l : List Char) : List Char :=
  subRep2Aux l.length l

/-- `extract_description(text)` from the source. -/
def extract_description (text : List Char) : Option String :=
  match find_first patterns_description_section2 text with
  | none => none
  | some block =>
    if block.isEmpty then none
    else
      let lines := ((pySplitlines block).map pyStrip).filter fun l => !l.isEmpty
      let selected := lines.filter fun l =>
        (pysearch reHCode l).isSome || (pysearch reSignal l).isSome
      let selected2 := if selected.isEmpty then lines.take 3 else selected
      let out := dedupAux [] selected2
      let desc := (List.intercalate "; ".toList out).take 800
      some (String.mk (subRep2 (subSemi desc)))

/-- `extract_fields(text)` from the source, assignment by assignment. -/
def extract_fields (text : String) : ParsedRecord :=
  let tn := normalize_whitespace text.toList
  let r0 : ParsedRecord := {}
  let r1 := { r0 with product_name := (find_first patterns_product_name tn).map String.mk }
  let r2 := { r1 with vendor := (find_first patterns_vendor tn).map String.mk }
  let r3 := { r2 with quantity := none, location := none }
  let r4 := { r3 with cas_number := (find_first patterns_cas_number tn).map String.mk }
  let raw_issue := (find_first patterns_issue_date tn).map String.mk
  let r5 := { r4 with issue_date := parse_date raw_issue }
  let r6 := { r5 with hazardous_substance := (find_first patterns_hazardous_substance tn).map String.mk }
  let r7 := { r6 with dangerous_good := (find_first patterns_dangerous_good tn).map String.mk }
  let r8 := { r7 with dangerous_goods_class := (find_first patterns_dangerous_goods_class tn).map String.mk }
  let r9 :=
    if (match r8.dangerous_goods_class with
        | some s => !decide (s = "") && containsSub (pyLower s.toList) "ification".toList
        | none => false) then
      { r8 with dangerous_goods_class := none }
    else r8
  let r10 := { r9 with packing_group := (find_first patterns_packing_group tn).map String.mk }
  let r11 := { r10 with subsidiary_risks := (find_first patterns_subsidiary_risks tn).map String.mk }
  let r12 := { r11 with description := extract_description tn }
  let r13 := infer_flags r12 tn
  { r13 with risk_rating := compute_risk_rating r13.consequence r13.likelihood }

/- ------------------------------------------------------------------ -/
/- The Register Store (`append_record_to_csv`).                        -/
/- ------------------------------------------------------------------ -/

/-- `row.get("Barcode")` through `csv.DictReader`: the row dict comes from
`zip(fieldnames, row)`, so a duplicated field name is bound to its last
zipped value, and a field name beyond the row length gets the `None`
restval (which compares unequal to every string, like an absent key). -/
def rowGet (hdr row : List String) (key : String) : Option String :=
  ((((hdr.zip row).filter fun p => p.1 = key).getLast?).map Prod.snd)

/-- `append_record_to_csv(record, path)` from the source.  The destination
file is modelled as its parsed rows (`none` = the file does not exist) and
the new contents are returned: scan existing rows for a duplicate barcode
(only when the record's barcode is truthy), silently skip on a duplicate,
otherwise append, writing the header first when the file did not exist. -/
def append_record_to_csv (record : ParsedRecord)
    (file : Option (List (List String))) : Option (List (List String)) :=
  let new_row := record.to_csv_row
  match file with
  | some rows =>
    let dup :=
      match rows with
      | [] => false
      | hdr :: data =>
        data.any fun row =>
          !pyFalsy record.barcode && decide (rowGet hdr row "Barcode" = record.barcode)
    if dup then some rows else some (rows ++ [new_row])
  | none => some [REGISTER_HEADERS, new_row]

/-- Model of the text-validation portion of the `/parse-sds` endpoint
(source lines 423–428): empty or whitespace-only extracted text is
rejected with HTTP 422 before `extract_fields` runs; afterwards a record
with neither product name nor vendor is rejected with 422. -/
def parse_sds_text_gate (text : String) : Except Nat ParsedRecord :=
  if pyStrip text.toList = [] then .error 422
  else
    let record := extract_fields text
    if !pyFalsy record.product_name || !pyFalsy record.vendor then .ok record
    else .error 422

/-- The sixteen fields of a record that the inference pass never assigns,
as one tuple (every field except `hazardous_substance`, `dangerous_good`
and `packing_group`). -/
def restFields (r : ParsedRecord) :=
  (r.product_name, r.vendor, r.quantity, r.location, r.cas_number, r.sds_available,
   r.issue_date, r.dangerous_goods_class, r.description, r.subsidiary_risks,
   r.consequence, r.likelihood, r.risk_rating, r.swp_requirement, r.comments_swp,
   r.barcode)

/- ------------------------------------------------------------------ -/
/- Engine lemmas: consumption and capture soundness.                   -/
/- ------------------------------------------------------------------ -/

theorem all_mono {p q : Char → Bool} (h : ∀ c, p c = true → q c = true) :
    ∀ l : List Char, l.all p = true → l.all q = true := by
  intro l hl
  simp only [List.all_eq_true] at hl ⊢
  exact fun c hc => h c (hl c hc)

theorem maxOK_add {x y : Option Nat} {n m : Nat} (hx : maxOK x n) (hy : maxOK y m) :
    maxOK (optAdd x y) (n + m) := by
  cases x <;> cases y <;> simp [optAdd, maxOK] at * <;> omega

theorem maxOK_max_left {x y : Option Nat} {n : Nat} (hx : maxOK x n) :
    maxOK (optMax x y) n := by
  cases x <;> cases y <;> simp [optMax, maxOK] at * <;> omega

theorem maxOK_max_right {x y : Option Nat} {n : Nat} (hy : maxOK y n) :
    maxOK (optMax x y) n := by
  cases x <;> cases y <;> simp [optMax, maxOK] at * <;> omega

theorem maxOK_zero (x : Option Nat) : maxOK x 0 := by
  cases x <;> simp [maxOK]

theorem litMatch_eq (ci : Bool) :
    ∀ (s cs rest : List Char), litMatch ci s cs = some rest →
      rest = cs.drop s.length ∧ s.length ≤ cs.length ∧
      (cs.take s.length).all (fun c => s.any fun l => charEq ci l c) = true := by
  intro s
  induction s with
  | nil =>
    intro cs rest h
    simp [litMatch] at h
    simp [h]
  | cons l ls ih =>
    intro cs rest h
    cases cs with
    | nil => simp [litMatch] at h
    | cons c cs' =>
      simp only [litMatch] at h
      split at h
      · obtain ⟨h1, h2, h3⟩ := ih cs' rest h
        refine ⟨by simpa using h1, by simpa using h2, ?_⟩
        simp only [List.length_cons, List.take_succ_cons, List.all_cons, Bool.and_eq_true]
        constructor
        · simp only [List.any_cons, Bool.or_eq_true]
          left
          assumption
        · refine all_mono ?_ _ h3
          intro x hx
          simp only [List.any_cons, Bool.or_eq_true]
          right
          exact hx
      · exact absurd h (by simp)

theorem countRun_le_length (p : Char → Bool) : ∀ l : List Char, countRun p l ≤ l.length := by
  intro l
  induction l with
  | nil => simp [countRun]
  | cons c rest ih =>
    simp only [countRun]
    split <;> simp <;> omega

theorem take_countRun_all (p : Char → Bool) :
    ∀ (l : List Char) (j : Nat), j ≤ countRun p l → (l.take j).all p = true := by
  intro l
  induction l with
  | nil => intro j hj; simp [countRun] at hj; simp [hj]
  | cons c rest ih =>
    intro j hj
    simp only [countRun] at hj
    split at hj
    · cases j with
      | zero => simp
      | succ j' =>
        simp only [List.take_succ_cons, List.all_cons, Bool.and_eq_true]
        exact ⟨by assumption, ih j' (by omega)⟩
    · have : j = 0 := by omega
      simp [this]

theorem repMax_le_countRun (p : Char → Bool) (hi : Option Nat) (cs : List Char) :
    repMax p hi cs ≤ countRun p cs := by
  cases hi <;> simp [repMax]

theorem repMax_le_hi (p : Char → Bool) (h : Nat) (cs : List Char) :
    repMax p (some h) cs ≤ h := by
  simp [repMax]

theorem repTry_some (k : MCont) (lo : Nat) (prev : Option Char) (cs : List Char)
    (pos : Nat) (caps : Caps) :
    ∀ (j : Nat) (res : Nat × Caps), repTry k lo prev cs pos caps j = some res →
      ∃ j2, j2 ≤ j ∧ lo ≤ j2 ∧
        k (repPrev prev cs j2) (cs.drop j2) (pos + j2) caps = some res := by
  intro j
  induction j with
  | zero =>
    intro res h
    simp only [repTry] at h
    split at h
    · exact ⟨0, le_refl _, by omega, by simpa [repPrev] using h⟩
    · exact absurd h (by simp)
  | succ j' ih =>
    intro res h
    simp only [repTry] at h
    split at h
    next hlo =>
      cases hk : k (repPrev prev cs (j' + 1)) (cs.drop (j' + 1)) (pos + (j' + 1)) caps with
      | some val =>
        rw [hk] at h
        simp only [Option.some.injEq] at h
        exact ⟨j' + 1, le_refl _, hlo, by rw [hk, h]⟩
      | none =>
        rw [hk] at h
        obtain ⟨j2, h1, h2, h3⟩ := ih res h
        exact ⟨j2, by omega, h2, h3⟩
    next => exact absurd h (by simp)

theorem take_between (ft : List Char) (pos p1 p2 : Nat) (h1 : pos ≤ p1) (h2 : p1 ≤ p2) :
    (ft.drop pos).take (p2 - pos) =
      (ft.drop pos).take (p1 - pos) ++ (ft.drop p1).take (p2 - p1) := by
  have ha : p2 - pos = (p1 - pos) + (p2 - p1) := by omega
  rw [ha, List.take_add]
  congr 2
  rw [List.drop_drop]
  congr 1
  omega

theorem drop_add_of_drop (ft : List Char) (pos j : Nat) :
    (ft.drop pos).drop j = ft.drop (pos + j) := by
  rw [List.drop_drop]

/-- Soundness of the matcher with respect to the syntactic bounds: a
successful run consumes between `reMin` and `reMax` characters, all inside
`reChars`, every captured span satisfies `capOK`, every `mustCap` group is
captured, and the continuation was invoked at the end of the consumed span
with the new captures pushed in front. -/
theorem mtch_caps (ft : List Char) :
    ∀ (r : RE) (prev : Option Char) (pos : Nat) (caps : Caps) (k : MCont)
      (res : Nat × Caps),
      pos ≤ ft.length →
      mtch r prev (ft.drop pos) pos caps k = some res →
      ∃ pos2 prev2 newc,
        pos ≤ pos2 ∧ pos2 ≤ ft.length ∧
        reMin r ≤ pos2 - pos ∧ maxOK (reMax r) (pos2 - pos) ∧
        ((ft.drop pos).take (pos2 - pos)).all (reChars r) = true ∧
        (∀ i st en, (i, st, en) ∈ newc →
          pos ≤ st ∧ st ≤ en ∧ en ≤ ft.length ∧
          capOK r i ((ft.drop st).take (en - st))) ∧
        (∀ i, mustCap r i = true → ∃ st en, (i, st, en) ∈ newc) ∧
        k prev2 (ft.drop pos2) pos2 (newc ++ caps) = some res := by
  intro r
  induction r with
  | eps =>
    intro prev pos caps k res hpos hm
    simp only [mtch] at hm
    refine ⟨pos, prev, [], le_refl _, hpos, ?_, ?_, ?_, ?_, ?_, ?_⟩
    · simp [reMin]
    · simp [reMax, maxOK]
    · simp [Nat.sub_self]
    · intro i st en hmem
      simp at hmem
    · intro i hi
      simp [mustCap] at hi
    · simpa using hm
  | atom p =>
    intro prev pos caps k res hpos hm
    cases hd : ft.drop pos with
    | nil =>
      rw [hd] at hm
      simp [mtch] at hm
    | cons c rest =>
      rw [hd] at hm
      simp only [mtch] at hm
      have hlen0 : (ft.drop pos).length = ft.length - pos := List.length_drop _ _
      rw [hd] at hlen0
      simp only [List.length_cons] at hlen0
      have hrest : ft.drop (pos + 1) = rest := by
        rw [← drop_add_of_drop, hd]
        simp
      split at hm
      next hpc =>
        refine ⟨pos + 1, some c, [], by omega, by omega, ?_, ?_, ?_, ?_, ?_, ?_⟩
        · simp [reMin]
        · simp [reMax, maxOK]
        · simp [hd, Nat.add_sub_cancel_left, reChars, hpc]
        · intro i st en hmem
          simp at hmem
        · intro i hi
          simp [mustCap] at hi
        · rw [hrest]
          simpa using hm
      next => exact absurd hm (by simp)
  | lit ci s =>
    intro prev pos caps k res hpos hm
    simp only [mtch] at hm
    cases hl : litMatch ci s (ft.drop pos) with
    | none =>
      rw [hl] at hm
      exact absurd hm (by simp)
    | some rest =>
      rw [hl] at hm
      obtain ⟨hr, hslen, hall⟩ := litMatch_eq ci s (ft.drop pos) rest hl
      have hdl : (ft.drop pos).length = ft.length - pos := List.length_drop _ _
      have hp2 : pos + s.length ≤ ft.length := by omega
      have hrest : rest = ft.drop (pos + s.length) := by
        rw [hr, drop_add_of_drop]
      refine ⟨pos + s.length, litPrev prev s (ft.drop pos), [], by omega, hp2,
        ?_, ?_, ?_, ?_, ?_, ?_⟩
      · simp [reMin]
      · simp [reMax, maxOK]
      · simpa [reChars, Nat.add_sub_cancel_left] using hall
      · intro i st en hmem
        simp at hmem
      · intro i hi
        simp [mustCap] at hi
      · rw [← hrest]
        simpa using hm
  | cat a b iha ihb =>
    intro prev pos caps k res hpos hm
    simp only [mtch] at hm
    obtain ⟨p1, pv1, n1, hle1, hl1, hmin1, hmax1, hch1, hcap1, hmust1, hk1⟩ :=
      iha prev pos caps _ res hpos hm
    obtain ⟨p2, pv2, n2, hle2, hl2, hmin2, hmax2, hch2, hcap2, hmust2, hk2⟩ :=
      ihb pv1 p1 (n1 ++ caps) k res hl1 hk1
    refine ⟨p2, pv2, n2 ++ n1, by omega, hl2, ?_, ?_, ?_, ?_, ?_, ?_⟩
    · simp only [reMin]
      omega
    · have hsum := maxOK_add hmax1 hmax2
      have he : p1 - pos + (p2 - p1) = p2 - pos := by omega
      rw [he] at hsum
      simpa [reMax] using hsum
    · rw [take_between ft pos p1 p2 hle1 hle2, List.all_append, Bool.and_eq_true]
      constructor
      · refine all_mono ?_ _ hch1
        intro c hc
        simp only [reChars, Bool.or_eq_true]
        left
        exact hc
      · refine all_mono ?_ _ hch2
        intro c hc
        simp only [reChars, Bool.or_eq_true]
        right
        exact hc
    · intro i st en hmem
      rcases List.mem_append.mp hmem with h2 | h1
      · obtain ⟨hb1, hb2, hb3, hb4⟩ := hcap2 i st en h2
        exact ⟨by omega, hb2, hb3, Or.inr hb4⟩
      · obtain ⟨hb1, hb2, hb3, hb4⟩ := hcap1 i st en h1
        exact ⟨hb1, hb2, hb3, Or.inl hb4⟩
    · intro i hi
      simp only [mustCap, Bool.or_eq_true] at hi
      rcases hi with hi | hi
      · obtain ⟨st, en, hmem⟩ := hmust1 i hi
        exact ⟨st, en, List.mem_append.mpr (Or.inr hmem)⟩
      · obtain ⟨st, en, hmem⟩ := hmust2 i hi
        exact ⟨st, en, List.mem_append.mpr (Or.inl hmem)⟩
    · rw [List.append_assoc]
      exact hk2
  | alt a b iha ihb =>
    intro prev pos caps k res hpos hm
    simp only [mtch] at hm
    cases hma : mtch a prev (ft.drop pos) pos caps k with
    | some val =>
      rw [hma] at hm
      simp only [Option.some.injEq] at hm
      subst hm
      obtain ⟨p2, pv2, nc, hle, hl, hmin, hmax, hch, hcap, hmust, hk⟩ :=
        iha prev pos caps k val hpos hma
      refine ⟨p2, pv2, nc, hle, hl, ?_, ?_, ?_, ?_, ?_, hk⟩
      · simp only [reMin]
        omega
      · exact maxOK_max_left hmax
      · refine all_mono ?_ _ hch
        intro c hc
        simp only [reChars, Bool.or_eq_true]
        left
        exact hc
      · intro i st en hmem
        obtain ⟨hb1, hb2, hb3, hb4⟩ := hcap i st en hmem
        exact ⟨hb1, hb2, hb3, Or.inl hb4⟩
      · intro i hi
        simp only [mustCap, Bool.and_eq_true] at hi
        exact hmust i hi.1
    | none =>
      rw [hma] at hm
      obtain ⟨p2, pv2, nc, hle, hl, hmin, hmax, hch, hcap, hmust, hk⟩ :=
        ihb prev pos caps k res hpos hm
      refine ⟨p2, pv2, nc, hle, hl, ?_, ?_, ?_, ?_, ?_, hk⟩
      · simp only [reMin]
        omega
      · exact maxOK_max_right hmax
      · refine all_mono ?_ _ hch
        intro c hc
        simp only [reChars, Bool.or_eq_true]
        right
        exact hc
      · intro i st en hmem
        obtain ⟨hb1, hb2, hb3, hb4⟩ := hcap i st en hmem
        exact ⟨hb1, hb2, hb3, Or.inr hb4⟩
      · intro i hi
        simp only [mustCap, Bool.and_eq_true] at hi
        exact hmust i hi.2
  | opt a iha =>
    intro prev pos caps k res hpos hm
    simp only [mtch] at hm
    cases hma : mtch a prev (ft.drop pos) pos caps k with
    | some val =>
      rw [hma] at hm
      simp only [Option.some.injEq] at hm
      subst hm
      obtain ⟨p2, pv2, nc, hle, hl, hmin, hmax, hch, hcap, hmust, hk⟩ :=
        iha prev pos caps k val hpos hma
      exact ⟨p2, pv2, nc, hle, hl, by simp [reMin], by simpa [reMax] using hmax,
        by simpa [reChars] using hch, hcap, fun i hi => by simp [mustCap] at hi, hk⟩
    | none =>
      rw [hma] at hm
      refine ⟨pos, prev, [], le_refl _, hpos, ?_, ?_, ?_, ?_, ?_, ?_⟩
      · simp [reMin]
      · simpa [reMax, Nat.sub_self] using maxOK_zero (reMax a)
      · simp [Nat.sub_self]
      · intro i st en hmem
        simp at hmem
      · intro i hi
        simp [mustCap] at hi
      · simpa using hm
  | rep p lo hi =>
    intro prev pos caps k res hpos hm
    simp only [mtch] at hm
    obtain ⟨j2, hj1, hj2, hk⟩ :=
      repTry_some k lo prev (ft.drop pos) pos caps (repMax p hi (ft.drop pos)) res hm
    have hcr : j2 ≤ countRun p (ft.drop pos) :=
      le_trans hj1 (repMax_le_countRun p hi (ft.drop pos))
    have hlen : countRun p (ft.drop pos) ≤ (ft.drop pos).length :=
      countRun_le_length p (ft.drop pos)
    have hdl : (ft.drop pos).length = ft.length - pos := List.length_drop _ _
    refine ⟨pos + j2, repPrev prev (ft.drop pos) j2, [], by omega, by omega,
      ?_, ?_, ?_, ?_, ?_, ?_⟩
    · simp only [reMin]
      omega
    · cases hi with
      | none => simp [reMax, maxOK]
      | some h =>
        have := repMax_le_hi p h (ft.drop pos)
        simp only [reMax, maxOK]
        omega
    · rw [Nat.add_sub_cancel_left]
      exact take_countRun_all p (ft.drop pos) j2 hcr
    · intro i st en hmem
      simp at hmem
    · intro i hi2
      simp [mustCap] at hi2
    · rw [← drop_add_of_drop]
      simpa using hk
  | group gi a iha =>
    intro prev pos caps k res hpos hm
    simp only [mtch] at hm
    obtain ⟨p1, pv1, n1, hle1, hl1, hmin1, hmax1, hch1, hcap1, hmust1, hk1⟩ :=
      iha prev pos caps _ res hpos hm
    refine ⟨p1, pv1, (gi, pos, p1) :: n1, hle1, hl1, ?_, ?_, ?_, ?_, ?_, ?_⟩
    · simpa [reMin] using hmin1
    · simpa [reMax] using hmax1
    · simpa [reChars] using hch1
    · intro i st en hmem
      rcases List.mem_cons.mp hmem with hhd | htl
      · simp only [Prod.mk.injEq] at hhd
        obtain ⟨hq1, hq2, hq3⟩ := hhd
        rw [hq1, hq2, hq3]
        have hspan : ((ft.drop pos).take (p1 - pos)).length = p1 - pos := by
          rw [List.length_take, List.length_drop]
          omega
        refine ⟨le_refl _, hle1, hl1, Or.inl ⟨rfl, ?_, ?_, ?_⟩⟩
        · rw [hspan]
          exact hmin1
        · rw [hspan]
          exact hmax1
        · exact hch1
      · obtain ⟨hb1, hb2, hb3, hb4⟩ := hcap1 i st en htl
        exact ⟨hb1, hb2, hb3, Or.inr hb4⟩
    · intro i hi
      simp only [mustCap, Bool.or_eq_true, decide_eq_true_eq] at hi
      rcases hi with hi | hi
      · exact ⟨pos, p1, by simp [hi]⟩
      · obtain ⟨st, en, hmem⟩ := hmust1 i hi
        exact ⟨st, en, List.mem_cons.mpr (Or.inr hmem)⟩
    · exact hk1
  | bol =>
    intro prev pos caps k res hpos hm
    simp only [mtch] at hm
    split at hm
    next =>
      refine ⟨pos, prev, [], le_refl _, hpos, by simp [reMin], by simp [reMax, maxOK],
        by simp [Nat.sub_self], ?_, ?_, by simpa using hm⟩
      · intro i st en hmem
        simp at hmem
      · intro i hi
        simp [mustCap] at hi
    next => exact absurd hm (by simp)
  | eol =>
    intro prev pos caps k res hpos hm
    simp only [mtch] at hm
    split at hm
    next =>
      refine ⟨pos, prev, [], le_refl _, hpos, by simp [reMin], by simp [reMax, maxOK],
        by simp [Nat.sub_self], ?_, ?_, by simpa using hm⟩
      · intro i st en hmem
        simp at hmem
      · intro i hi
        simp [mustCap] at hi
    next => exact absurd hm (by simp)
  | wordB =>
    intro prev pos caps k res hpos hm
    simp only [mtch] at hm
    split at hm
    next =>
      refine ⟨pos, prev, [], le_refl _, hpos, by simp [reMin], by simp [reMax, maxOK],
        by simp [Nat.sub_self], ?_, ?_, by simpa using hm⟩
      · intro i st en hmem
        simp at hmem
      · intro i hi
        simp [mustCap] at hi
    next => exact absurd hm (by simp)

theorem lookupCap_mem :
    ∀ (caps : Caps) (i s e : Nat), lookupCap caps i = some (s, e) → (i, s, e) ∈ caps := by
  intro caps
  induction caps with
  | nil => intro i s e h; simp [lookupCap] at h
  | cons hd rest ih =>
    intro i s e h
    obtain ⟨j, s', e'⟩ := hd
    simp only [lookupCap] at h
    split at h
    next hij =>
      simp only [Option.some.injEq, Prod.mk.injEq] at h
      subst hij
      simp [h.1, h.2]
    next => exact List.mem_cons.mpr (Or.inr (ih i s e h))

theorem lookupCap_of_mem :
    ∀ (caps : Caps) (i s e : Nat), (i, s, e) ∈ caps → ∃ se, lookupCap caps i = some se := by
  intro caps
  induction caps with
  | nil => intro i s e h; simp at h
  | cons hd rest ih =>
    intro i s e h
    obtain ⟨j, s', e'⟩ := hd
    simp only [lookupCap]
    split
    next => exact ⟨(s', e'), rfl⟩
    next hij =>
      rcases List.mem_cons.mp h with hhd | htl
      · simp only [Prod.mk.injEq] at hhd
        exact absurd hhd.1 hij
      · exact ih i s e htl

theorem searchAux_caps_hit (ft : List Char) (r : RE) (prev : Option Char)
    (pos en' : Nat) (caps' : Caps) (hpos : pos ≤ ft.length)
    (hmm : mtch r prev (ft.drop pos) pos [] (fun _ _ q2 g2 => some (q2, g2)) =
      some (en', caps')) :
    (∀ i s e, (i, s, e) ∈ caps' →
      s ≤ e ∧ e ≤ ft.length ∧ capOK r i ((ft.drop s).take (e - s))) ∧
    (∀ i, mustCap r i = true → ∃ s e, (i, s, e) ∈ caps') := by
  obtain ⟨pos2, prev2, newc, h1, h2, h3, h4, h5, hcap, hmust, hk⟩ :=
    mtch_caps ft r prev pos [] _ (en', caps') hpos hmm
  simp only [List.append_nil, Option.some.injEq, Prod.mk.injEq] at hk
  constructor
  · intro i s e hmem
    rw [← hk.2] at hmem
    obtain ⟨hb1, hb2, hb3, hb4⟩ := hcap i s e hmem
    exact ⟨hb2, hb3, hb4⟩
  · intro i hi
    obtain ⟨s, e, hmem⟩ := hmust i hi
    exact ⟨s, e, by rw [← hk.2]; exact hmem⟩

theorem searchAux_caps (ft : List Char) (r : RE) :
    ∀ (cs : List Char) (prev : Option Char) (pos st en : Nat) (caps : Caps),
      cs = ft.drop pos → pos ≤ ft.length →
      searchAux r prev cs pos = some (st, en, caps) →
      (∀ i s e, (i, s, e) ∈ caps →
        s ≤ e ∧ e ≤ ft.length ∧ capOK r i ((ft.drop s).take (e - s))) ∧
      (∀ i, mustCap r i = true → ∃ s e, (i, s, e) ∈ caps) := by
  intro cs
  induction cs with
  | nil =>
    intro prev pos st en caps hcs hpos hs
    simp only [searchAux] at hs
    cases hmm : mtch r prev [] pos [] (fun _ _ q2 g2 => some (q2, g2)) with
    | some val =>
      rw [hmm] at hs
      obtain ⟨en', caps'⟩ := val
      simp only [Option.some.injEq, Prod.mk.injEq] at hs
      obtain ⟨hs1, hs2, hs3⟩ := hs
      have hmm2 : mtch r prev (ft.drop pos) pos []
          (fun _ _ q2 g2 => some (q2, g2)) = some (en', caps') := by
        rw [← hcs]
        exact hmm
      rw [← hs3]
      exact searchAux_caps_hit ft r prev pos en' caps' hpos hmm2
    | none =>
      rw [hmm] at hs
      simp at hs
  | cons c rest ih =>
    intro prev pos st en caps hcs hpos hs
    simp only [searchAux] at hs
    cases hmm : mtch r prev (c :: rest) pos [] (fun _ _ q2 g2 => some (q2, g2)) with
    | some val =>
      rw [hmm] at hs
      obtain ⟨en', caps'⟩ := val
      simp only [Option.some.injEq, Prod.mk.injEq] at hs
      obtain ⟨hs1, hs2, hs3⟩ := hs
      have hmm2 : mtch r prev (ft.drop pos) pos []
          (fun _ _ q2 g2 => some (q2, g2)) = some (en', caps') := by
        rw [← hcs]
        exact hmm
      rw [← hs3]
      exact searchAux_caps_hit ft r prev pos en' caps' hpos hmm2
    | none =>
      rw [hmm] at hs
      have hrest : rest = ft.drop (pos + 1) := by
        rw [← drop_add_of_drop, ← hcs]
        simp
      have hlen0 : (ft.drop pos).length = ft.length - pos := List.length_drop _ _
      rw [← hcs] at hlen0
      simp only [List.length_cons] at hlen0
      exact ih (some c) (pos + 1) st en caps hrest (by omega) hs

/-- A group that participates in every match of a pattern is captured by a
successful search, and its capture satisfies the syntactic description
`capOK` of the group body. -/
theorem pysearch_caps (pat : PyPattern) (text : List Char) (m : PyMatch) (i : Nat)
    (hm : pysearch pat text = some m) (hmust : mustCap pat.re (i + 1) = true)
    (hlt : i < pat.ngroups) :
    ∃ g, m.gs.get? i = some (some g) ∧ capOK pat.re (i + 1) g := by
  unfold pysearch at hm
  cases hsr : searchAux pat.re none text 0 with
  | none =>
    rw [hsr] at hm
    simp at hm
  | some val =>
    rw [hsr] at hm
    obtain ⟨st, en, caps⟩ := val
    simp only [Option.some.injEq] at hm
    have hsr2 : searchAux pat.re none text 0 = some (st, en, caps) := hsr
    have hcaps := searchAux_caps text pat.re text none 0 st en caps (by simp) (by simp) hsr2
    obtain ⟨s, e, hmem⟩ := hcaps.2 (i + 1) hmust
    obtain ⟨se, hlk⟩ := lookupCap_of_mem caps (i + 1) s e hmem
    obtain ⟨s', e'⟩ := se
    have hmem' := lookupCap_mem caps (i + 1) s' e' hlk
    obtain ⟨hb1, hb2, hb3⟩ := hcaps.1 (i + 1) s' e' hmem'
    refine ⟨(text.drop s').take (e' - s'), ?_, hb3⟩
    rw [← hm]
    simp only [List.get?_map, List.get?_range hlt, Option.map_some]
    simp [hlk]

/- ------------------------------------------------------------------ -/
/- Claim-level lemmas and theorems.                                    -/
/- ------------------------------------------------------------------ -/

set_option maxRecDepth 400000

theorem restFields_inferHaz (r : ParsedRecord) (t : List Char) :
    restFields (inferHaz r t) = restFields r := by
  unfold inferHaz restFields
  repeat' split
  all_goals simp

theorem restFields_inferDG (r : ParsedRecord) (t : List Char) :
    restFields (inferDG r t) = restFields r := by
  unfold inferDG restFields
  repeat' split
  all_goals simp

theorem restFields_inferPG (r : ParsedRecord) (t : List Char) :
    restFields (inferPG r t) = restFields r := by
  unfold inferPG restFields
  repeat' split
  all_goals simp

theorem restFields_infer_flags (r : ParsedRecord) (t : List Char) :
    restFields (infer_flags r t) = restFields r := by
  unfold infer_flags
  rw [restFields_inferPG, restFields_inferDG, restFields_inferHaz]

theorem infer_flags_frame (r : ParsedRecord) (t : List Char) :
    (infer_flags r t).product_name = r.product_name ∧
    (infer_flags r t).vendor = r.vendor ∧
    (infer_flags r t).quantity = r.quantity ∧
    (infer_flags r t).location = r.location ∧
    (infer_flags r t).cas_number = r.cas_number ∧
    (infer_flags r t).sds_available = r.sds_available ∧
    (infer_flags r t).issue_date = r.issue_date ∧
    (infer_flags r t).dangerous_goods_class = r.dangerous_goods_class ∧
    (infer_flags r t).description = r.description ∧
    (infer_flags r t).subsidiary_risks = r.subsidiary_risks ∧
    (infer_flags r t).consequence = r.consequence ∧
    (infer_flags r t).likelihood = r.likelihood ∧
    (infer_flags r t).risk_rating = r.risk_rating ∧
    (infer_flags r t).swp_requirement = r.swp_requirement ∧
    (infer_flags r t).comments_swp = r.comments_swp ∧
    (infer_flags r t).barcode = r.barcode := by
  have h := restFields_infer_flags r t
  simp only [restFields, Prod.mk.injEq] at h
  exact h

/-- The inference stages do not touch each other's fields. -/
theorem infer_stage_cross (r : ParsedRecord) (t : List Char) :
    (inferHaz r t).dangerous_good = r.dangerous_good ∧
    (inferHaz r t).dangerous_goods_class = r.dangerous_goods_class ∧
    (inferHaz r t).packing_group = r.packing_group ∧
    (inferDG r t).hazardous_substance = r.hazardous_substance ∧
    (inferDG r t).packing_group = r.packing_group ∧
    (inferPG r t).hazardous_substance = r.hazardous_substance ∧
    (inferPG r t).dangerous_good = r.dangerous_good := by
  unfold inferHaz inferDG inferPG
  repeat' split
  all_goals simp

theorem inferHaz_keeps (r : ParsedRecord) (t : List Char) (v : String)
    (hv : r.hazardous_substance = some v) (hne : v ≠ "") :
    (inferHaz r t).hazardous_substance = some v := by
  unfold inferHaz
  simp [pyFalsy, hv, hne]

theorem inferDG_keeps (r : ParsedRecord) (t : List Char) (v : String)
    (hv : r.dangerous_good = some v) (hne : v ≠ "") :
    (inferDG r t).dangerous_good = some v := by
  unfold inferDG
  simp [pyFalsy, hv, hne]

theorem inferPG_keeps (r : ParsedRecord) (t : List Char) (v : String)
    (hv : r.packing_group = some v) (hne : v ≠ "") :
    (inferPG r t).packing_group = some v := by
  unfold inferPG
  simp [pyFalsy, hv, hne]

theorem infer_flags_keeps (r : ParsedRecord) (t : List Char) :
    (∀ v, r.hazardous_substance = some v → v ≠ "" →
      (infer_flags r t).hazardous_substance = some v) ∧
    (∀ v, r.dangerous_good = some v → v ≠ "" →
      (infer_flags r t).dangerous_good = some v) ∧
    (∀ v, r.packing_group = some v → v ≠ "" →
      (infer_flags r t).packing_group = some v) := by
  refine ⟨?_, ?_, ?_⟩
  · intro v hv hne
    unfold infer_flags
    have h1 := inferHaz_keeps r t v hv hne
    have h2 := (infer_stage_cross (inferHaz r t) t).2.2.2.1
    rw [h1] at h2
    have h3 := (infer_stage_cross (inferDG (inferHaz r t) t) t).2.2.2.2.2.1
    rw [h2] at h3
    exact h3
  · intro v hv hne
    unfold infer_flags
    have h1 := (infer_stage_cross r t).1
    rw [hv] at h1
    have h2 := inferDG_keeps (inferHaz r t) t v h1 hne
    have h3 := (infer_stage_cross (inferDG (inferHaz r t) t) t).2.2.2.2.2.2
    rw [h2] at h3
    exact h3
  · intro v hv hne
    unfold infer_flags
    have h1 := (infer_stage_cross r t).2.2.1
    rw [hv] at h1
    have h2 := (infer_stage_cross (inferHaz r t) t).2.2.2.2.1
    rw [h1] at h2
    exact inferPG_keeps (inferDG (inferHaz r t) t) t v h2 hne

/-- C2 (counterexample): `infer_flags` checks Python truthiness, not
unsetness, so a field already set to the empty string is overwritten: with
`hazardous_substance = ""` and a text containing a classification
assertion, the inference pass replaces the set value `""` by `"Yes"`. -/
theorem infer_flags_overwrites_empty_string :
    ({ hazardous_substance := some "" } : ParsedRecord).hazardous_substance = some "" ∧
    (infer_flags { hazardous_substance := some "" }
      "Classified as Hazardous".toList).hazardous_substance = some "Yes" ∧
    (some "Yes" : Option String) ≠ some "" := by
  refine ⟨rfl, by decide, by decide⟩

/-- C2 (amended): `infer_flags` changes at most `hazardous_substance`,
`dangerous_good` and `packing_group`; it changes each of those only when
the field is currently unset or holds the empty string (Python falsiness),
so every field set to a non-empty value — and every other field — keeps
its prior value, for every record and every text. -/
theorem infer_flags_amended (r : ParsedRecord) (t : List Char) :
    (∀ v, r.hazardous_substance = some v → v ≠ "" →
      (infer_flags r t).hazardous_substance = some v) ∧
    (∀ v, r.dangerous_good = some v → v ≠ "" →
      (infer_flags r t).dangerous_good = some v) ∧
    (∀ v, r.packing_group = some v → v ≠ "" →
      (infer_flags r t).packing_group = some v) ∧
    (infer_flags r t).product_name = r.product_name ∧
    (infer_flags r t).vendor = r.vendor ∧
    (infer_flags r t).quantity = r.quantity ∧
    (infer_flags r t).location = r.location ∧
    (infer_flags r t).cas_number = r.cas_number ∧
    (infer_flags r t).sds_available = r.sds_available ∧
    (infer_flags r t).issue_date = r.issue_date ∧
    (infer_flags r t).dangerous_goods_class = r.dangerous_goods_class ∧
    (infer_flags r t).description = r.description ∧
    (infer_flags r t).subsidiary_risks = r.subsidiary_risks ∧
    (infer_flags r t).consequence = r.consequence ∧
    (infer_flags r t).likelihood = r.likelihood ∧
    (infer_flags r t).risk_rating = r.risk_rating ∧
    (infer_flags r t).swp_requirement = r.swp_requirement ∧
    (infer_flags r t).comments_swp = r.comments_swp ∧
    (infer_flags r t).barcode = r.barcode := by
  obtain ⟨k1, k2, k3⟩ := infer_flags_keeps r t
  exact ⟨k1, k2, k3, infer_flags_frame r t⟩

/-- C2 (witness for the amended theorem). -/
theorem infer_flags_amended_witness :
    (infer_flags { hazardous_substance := some "Yes" }
      "Classified as Hazardous".toList).hazardous_substance = some "Yes" :=
  (infer_flags_amended { hazardous_substance := some "Yes" }
    "Classified as Hazardous".toList).1 "Yes" rfl (by decide)

/-- C3 (counterexample): `extract_fields` performs no emptiness check: on
the empty string it returns the Parsed Record with every optional field
unset (and the fixed `sds_available`), instead of rejecting the input. -/
theorem extract_fields_empty_no_rejection :
    extract_fields "" =
      { product_name := none, vendor := none, quantity := none, location := none,
        cas_number := none, sds_available := "Yes", issue_date := none,
        hazardous_substance := none, dangerous_good := none,
        dangerous_goods_class := none, description := none, packing_group := none,
        subsidiary_risks := none, consequence := none, likelihood := none,
        risk_rating := none, swp_requirement := none, comments_swp := none,
        barcode := none } := by
  decide

/-- C3 (amended): the empty/whitespace-only precondition is enforced not
by `extract_fields` but by the HTTP endpoint caller: the `/parse-sds`
handler rejects such text with 422 before `extract_fields` is invoked,
while `extract_fields` itself maps empty input to the all-unset record. -/
theorem empty_text_rejected_by_endpoint (t : String) (h : pyStrip t.toList = []) :
    parse_sds_text_gate t = .error 422 ∧
    extract_fields "" = ({} : ParsedRecord) := by
  constructor
  · unfold parse_sds_text_gate
    rw [if_pos h]
  · decide

/-- C3 (witness for the amended theorem). -/
theorem empty_text_rejected_by_endpoint_witness :
    pyStrip " ".toList = [] ∧ parse_sds_text_gate " " = .error 422 :=
  ⟨by decide, (empty_text_rejected_by_endpoint " " (by decide)).1⟩

/-- C4: duplicate suppression of the Register Store.  If the destination
exists and the record carries a non-empty barcode that equals (exact,
case-sensitive string comparison) the Barcode column of some existing data
row, nothing is written and the contents are unchanged; a record whose
barcode is unset or empty is never treated as a duplicate and is always
appended. -/
theorem append_record_dedup (r : ParsedRecord) :
    (∀ (hdr : List String) (data : List (List String)) (b : String),
      r.barcode = some b → b ≠ "" →
      (∃ row ∈ data, rowGet hdr row "Barcode" = some b) →
      append_record_to_csv r (some (hdr :: data)) = some (hdr :: data)) ∧
    (∀ rows : List (List String), (r.barcode = none ∨ r.barcode = some "") →
      append_record_to_csv r (some rows) = some (rows ++ [r.to_csv_row])) := by
  constructor
  · intro hdr data b hb hne hex
    obtain ⟨row, hmem, hrow⟩ := hex
    have hdup : (data.any fun row =>
        !pyFalsy r.barcode && decide (rowGet hdr row "Barcode" = r.barcode)) = true := by
      refine List.any_eq_true.mpr ⟨row, hmem, ?_⟩
      rw [hb, hrow]
      simp [pyFalsy, hne]
    simp [append_record_to_csv, hdup]
  · intro rows hb
    have hfal : pyFalsy r.barcode = true := by
      rcases hb with hb | hb <;> simp [pyFalsy, hb]
    cases rows with
    | nil => simp [append_record_to_csv]
    | cons hdr data => simp [append_record_to_csv, hfal]

/-- C4 (witness). -/
theorem append_record_dedup_witness :
    append_record_to_csv { barcode := some "123" }
      (some [REGISTER_HEADERS, ({ barcode := some "123" } : ParsedRecord).to_csv_row]) =
      some [REGISTER_HEADERS, ({ barcode := some "123" } : ParsedRecord).to_csv_row] ∧
    append_record_to_csv ({} : ParsedRecord) (some [REGISTER_HEADERS]) =
      some ([REGISTER_HEADERS] ++ [({} : ParsedRecord).to_csv_row]) := by
  constructor
  · exact (append_record_dedup _).1 REGISTER_HEADERS
      [({ barcode := some "123" } : ParsedRecord).to_csv_row] "123" rfl (by decide)
      ⟨({ barcode := some "123" } : ParsedRecord).to_csv_row, by simp, by decide⟩
  · exact (append_record_dedup _).2 [REGISTER_HEADERS] (Or.inl rfl)

/-- C5: appending the first-ever record to a non-existent destination
creates the file as exactly the fixed 19-column header row followed by one
data row, whose values are the record's fields in declared order with
unset fields rendered as the empty string. -/
theorem append_record_creates_file (r : ParsedRecord) :
    append_record_to_csv r none = some [REGISTER_HEADERS, r.to_csv_row] ∧
    REGISTER_HEADERS.length = 19 ∧
    REGISTER_HEADERS.head? = some "Product Name" ∧
    REGISTER_HEADERS.getLast? = some "Barcode" ∧
    r.to_csv_row.length = 19 ∧
    r.to_csv_row =
      [r.product_name.getD "", r.vendor.getD "", r.quantity.getD "", r.location.getD "",
       r.cas_number.getD "", r.sds_available, r.issue_date.getD "",
       r.hazardous_substance.getD "", r.dangerous_good.getD "",
       r.dangerous_goods_class.getD "", r.description.getD "", r.packing_group.getD "",
       r.subsidiary_risks.getD "", r.consequence.getD "", r.likelihood.getD "",
       r.risk_rating.getD "", r.swp_requirement.getD "", r.comments_swp.getD "",
       r.barcode.getD ""] := by
  exact ⟨rfl, by decide, by decide, by decide, rfl, rfl⟩

/-- C8: on a year-month-day input the `%Y-%m-%d` entry of
`DATE_FORMATS_IN` can never match, because `parse_date` replaces hyphens
with slashes before the format loop; the input falls through to the loose
regex, which reads the last two digits of the year as the day:
`"2023-04-12"` yields `"23/04/2012"`, not `"12/04/2023"`. -/
theorem parse_date_ymd_misparsed :
    parse_date (some "2023-04-12") = some "23/04/2012" ∧
    parse_date (some "2023-04-12") ≠ some "12/04/2023" := by
  refine ⟨by decide, by decide⟩

theorem lookupTable_val_mem :
    ∀ (t : List (String × Nat)) (s : String) (v : Nat),
      lookupTable t s = some v → v ∈ t.map Prod.snd := by
  intro t
  induction t with
  | nil =>
    intro s v h
    simp [lookupTable] at h
  | cons hd rest ih =>
    intro s v h
    obtain ⟨k, w⟩ := hd
    simp only [lookupTable] at h
    split at h
    · simp only [Option.some.injEq] at h
      simp [h]
    · simp [ih s v h]

/-- C6: `compute_risk_rating` agrees everywhere with the rating function
as the specification words it — trim and lowercase, fixed ordinal tables,
product score under the inclusive bands 1–4 Low / 5–9 Medium / 10–16 High
/ 17–25 Extreme rendered `Label (score)`, and no rating (never a default)
when either side is absent or unrecognized. -/
theorem compute_risk_rating_eq_spec (oc ol : Option String) :
    compute_risk_rating oc ol = risk_rating_spec oc ol := by
  cases oc with
  | none => cases ol <;> rfl
  | some c =>
    cases ol with
    | none =>
      simp only [compute_risk_rating, risk_rating_spec, Option.bind]
      cases lookupTable cons_map (String.mk (pyLower (pyStrip c.toList))) <;> rfl
    | some l =>
      simp only [compute_risk_rating, risk_rating_spec, Option.bind]
      by_cases hc : c = ""
      · subst hc
        rw [if_pos (Or.inl rfl)]
        have h0 : lookupTable cons_map (String.mk (pyLower (pyStrip "".toList))) = none := by
          decide
        rw [h0]
      · by_cases hl : l = ""
        · subst hl
          rw [if_pos (Or.inr rfl)]
          have h0 : lookupTable lik_map (String.mk (pyLower (pyStrip "".toList))) = none := by
            decide
          rw [h0]
          cases lookupTable cons_map (String.mk (pyLower (pyStrip c.toList))) <;> rfl
        · rw [if_neg (by simp [hc, hl])]
          cases hcv : lookupTable cons_map (String.mk (pyLower (pyStrip c.toList))) with
          | none => rfl
          | some cv =>
            cases hlv : lookupTable lik_map (String.mk (pyLower (pyStrip l.toList))) with
            | none => rfl
            | some lv =>
              have hcm := lookupTable_val_mem _ _ _ hcv
              have hlm := lookupTable_val_mem _ _ _ hlv
              simp only [cons_map, lik_map, List.map_cons, List.map_nil,
                List.mem_cons, List.not_mem_nil, or_false] at hcm hlm
              have hcb : 1 ≤ cv ∧ cv ≤ 5 := by rcases hcm with h|h|h|h|h <;> omega
              have hlb : 1 ≤ lv ∧ lv ≤ 5 := by rcases hlm with h|h|h|h|h <;> omega
              have hs1 : 1 ≤ cv * lv := Nat.mul_le_mul hcb.1 hlb.1
              have hs25 : cv * lv ≤ 25 := by
                calc cv * lv ≤ 5 * 5 := Nat.mul_le_mul hcb.2 hlb.2
                _ = 25 := rfl
              dsimp only
              split_ifs <;> first | rfl | omega

theorem getLast?_cons_or (g : List Char) (rest : List (List Char)) :
    (g :: rest).getLast? = (rest.getLast?).or (some g) := by
  cases rest with
  | nil => rfl
  | cons r rs =>
    rw [List.getLast?_cons_cons]
    have hs : ((r :: rs).getLast?).isSome = true := by
      rw [List.getLast?_isSome]
      simp
    obtain ⟨x, hx⟩ := Option.isSome_iff_exists.mp hs
    rw [hx]
    rfl

theorem lastNonEmptyGroup_eq_getLast :
    ∀ gs : List (Option (List Char)),
      (gs.reverse.findSome? fun og =>
        match og with
        | some g => if g.isEmpty then none else some g
        | none => none) =
      ((gs.filterMap id).filter fun g => !g.isEmpty).getLast? := by
  intro gs
  induction gs with
  | nil => rfl
  | cons og gs' ih =>
    rw [List.reverse_cons, List.findSome?_append]
    cases og with
    | none =>
      simp only [List.findSome?_cons, List.findSome?_nil]
      rw [show List.filterMap id ((none : Option (List Char)) :: gs') = List.filterMap id gs' from rfl]
      rw [← ih]
      cases gs'.reverse.findSome? fun og =>
        (match og with
        | some g => if g.isEmpty then none else some g
        | none => none : Option (List Char)) <;> rfl
    | some g =>
      simp only [List.findSome?_cons, List.findSome?_nil]
      rw [show List.filterMap id (some g :: gs') = g :: List.filterMap id gs' from rfl]
      by_cases hg : g.isEmpty
      · rw [if_pos hg]
        have hq : (!g.isEmpty) = false := by simp [hg]
        rw [List.filter_cons_of_neg (by simp [hq])]
        rw [← ih]
        cases gs'.reverse.findSome? fun og =>
          (match og with
          | some g => if g.isEmpty then none else some g
          | none => none : Option (List Char)) <;> rfl
      · rw [if_neg hg]
        rw [List.filter_cons_of_pos (by simp [hg])]
        rw [getLast?_cons_or, ← ih]

/-- C1: the Field Locator.  `find_first` equals the specification's
contract `locate_spec` on every ordered rule list and every text: rules
are tried in declared order with early exit; the first matching rule
selects the last non-empty captured group, or the whole matched span when
no group captured a non-empty value; the result is stripped of surrounding
whitespace and of any trailing run of whitespace/colon/semicolon
characters; no match anywhere yields nothing. -/
theorem find_first_eq_locate_spec (pats : List SearchFun) (text : List Char) :
    find_first pats text = locate_spec pats text := by
  induction pats with
  | nil => rfl
  | cons p ps ih =>
    unfold find_first locate_spec
    cases hp : p text with
    | none =>
      simp only [List.findSome?_cons, hp]
      rw [ih]
      rfl
    | some m =>
      simp only [List.findSome?_cons, hp, Option.map_some']
      rw [show lastNonEmptyGroup m =
        ((m.gs.filterMap id).filter fun g => !g.isEmpty).getLast? from
        lastNonEmptyGroup_eq_getLast m.gs]
      cases ((m.gs.filterMap id).filter fun g => !g.isEmpty).getLast? <;> rfl

theorem infer_flags_quantity (r : ParsedRecord) (t : List Char) :
    (infer_flags r t).quantity = r.quantity :=
  (infer_flags_frame r t).2.2.1

theorem infer_flags_location (r : ParsedRecord) (t : List Char) :
    (infer_flags r t).location = r.location :=
  (infer_flags_frame r t).2.2.2.1

theorem infer_flags_sds_available (r : ParsedRecord) (t : List Char) :
    (infer_flags r t).sds_available = r.sds_available :=
  (infer_flags_frame r t).2.2.2.2.2.1

theorem infer_flags_consequence (r : ParsedRecord) (t : List Char) :
    (infer_flags r t).consequence = r.consequence :=
  (infer_flags_frame r t).2.2.2.2.2.2.2.2.2.2.1

theorem infer_flags_likelihood (r : ParsedRecord) (t : List Char) :
    (infer_flags r t).likelihood = r.likelihood :=
  (infer_flags_frame r t).2.2.2.2.2.2.2.2.2.2.2.1

theorem infer_flags_swp (r : ParsedRecord) (t : List Char) :
    (infer_flags r t).swp_requirement = r.swp_requirement :=
  (infer_flags_frame r t).2.2.2.2.2.2.2.2.2.2.2.2.2.1

theorem infer_flags_comments (r : ParsedRecord) (t : List Char) :
    (infer_flags r t).comments_swp = r.comments_swp :=
  (infer_flags_frame r t).2.2.2.2.2.2.2.2.2.2.2.2.2.2.1

theorem infer_flags_barcode (r : ParsedRecord) (t : List Char) :
    (infer_flags r t).barcode = r.barcode :=
  (infer_flags_frame r t).2.2.2.2.2.2.2.2.2.2.2.2.2.2.2

/-- C10: for every input text the assembled record leaves `consequence`,
`likelihood` and hence `risk_rating` unset (no pattern populates the two
inputs, and the rating is computed only from them), never populates
`quantity`, `location`, `swp_requirement`, `comments_swp` or `barcode`,
and carries the fixed `sds_available = "Yes"`. -/
theorem extract_fields_fixed_fields (t : String) :
    (extract_fields t).consequence = none ∧
    (extract_fields t).likelihood = none ∧
    (extract_fields t).risk_rating = none ∧
    (extract_fields t).quantity = none ∧
    (extract_fields t).location = none ∧
    (extract_fields t).swp_requirement = none ∧
    (extract_fields t).comments_swp = none ∧
    (extract_fields t).barcode = none ∧
    (extract_fields t).sds_available = "Yes" := by
  unfold extract_fields
  simp only [infer_flags_quantity, infer_flags_location, infer_flags_sds_available,
    infer_flags_consequence, infer_flags_likelihood, infer_flags_swp,
    infer_flags_comments, infer_flags_barcode]
  split <;> simp [compute_risk_rating]

theorem pysearch_gs_length (p : PyPattern) (txt : List Char) (m : PyMatch)
    (h : pysearch p txt = some m) : m.gs.length = p.ngroups := by
  unfold pysearch at h
  cases hs : searchAux p.re none txt 0 with
  | none =>
    rw [hs] at h
    simp at h
  | some val =>
    rw [hs] at h
    obtain ⟨st, en, caps⟩ := val
    simp only [Option.some.injEq] at h
    rw [← h]
    simp

theorem list_len1_get (l : List (Option (List Char))) (x : Option (List Char))
    (h1 : l.length = 1) (h0 : l.get? 0 = some x) : l = [x] := by
  cases l with
  | nil => simp at h1
  | cons a rest =>
    cases rest with
    | nil =>
      simp at h0
      rw [h0]
    | cons b rs => simp at h1

theorem toLowerN_eq_105 (c : Char) (h : toLowerN c.toNat = 105) :
    c = 'I' ∨ c = 'i' := by
  unfold toLowerN at h
  have hofn := Char.ofNat_toNat c
  split at h
  · left
    have h73 : c.toNat = 73 := by omega
    rw [h73] at hofn
    exact hofn.symm
  · right
    rw [h] at hofn
    exact hofn.symm

theorem reChars_pgBody_char (c : Char) (h : reChars pgBody c = true) :
    c = 'I' ∨ c = 'i' := by
  simp only [pgBody, reChars, iLetter, charEq, List.any_cons, List.any_nil,
    Bool.or_eq_true, Bool.or_false, decide_eq_true_eq, String.toList, if_true] at h
  have key : toLowerN 'I'.toNat = toLowerN c.toNat → c = 'I' ∨ c = 'i' := by
    intro hk
    have h105 : toLowerN c.toNat = 105 := by
      rw [← hk]
      decide
    exact toLowerN_eq_105 c h105
  rcases h with h | h
  · exact h
  · rcases h with (h | h) | h | h | h <;> exact key h

theorem capOK_pgBody_group (re2 : RE) (g : List Char)
    (h : capOK re2 1 g)
    (hred : capOK re2 1 g ↔
      (reMin pgBody ≤ g.length ∧ maxOK (reMax pgBody) g.length ∧
        g.all (reChars pgBody) = true)) :
    1 ≤ g.length ∧ g.length ≤ 3 ∧ ∀ c ∈ g, c = 'I' ∨ c = 'i' := by
  obtain ⟨h1, h2, h3⟩ := hred.mp h
  have hm1 : reMin pgBody = 1 := rfl
  have hm3 : reMax pgBody = some 3 := rfl
  rw [hm1] at h1
  rw [hm3] at h2
  refine ⟨h1, h2, ?_⟩
  intro c hc
  exact reChars_pgBody_char c (List.all_eq_true.mp h3 c hc)

theorem pg_capture_shape (txt : List Char) (mt : PyMatch)
    (hm : pysearch rePackingGroup txt = some mt) :
    ∃ g, mt.gs = [some g] ∧ 1 ≤ g.length ∧ g.length ≤ 3 ∧
      ∀ c ∈ g, c = 'I' ∨ c = 'i' := by
  obtain ⟨g, hget, hcap⟩ := pysearch_caps rePackingGroup txt mt 0 hm (by rfl) (by decide)
  have hlen := pysearch_gs_length rePackingGroup txt mt hm
  have hgs : mt.gs = [some g] := list_len1_get mt.gs (some g) hlen hget
  refine ⟨g, hgs, capOK_pgBody_group rePackingGroup.re g hcap ?_⟩
  simp [rePackingGroup, seqL, capOK]

theorem pg2_capture_shape (txt : List Char) (mt : PyMatch)
    (hm : pysearch rePackingGroup2 txt = some mt) :
    ∃ g, mt.gs = [some g] ∧ 1 ≤ g.length ∧ g.length ≤ 3 ∧
      ∀ c ∈ g, c = 'I' ∨ c = 'i' := by
  obtain ⟨g, hget, hcap⟩ := pysearch_caps rePackingGroup2 txt mt 0 hm (by rfl) (by decide)
  have hlen := pysearch_gs_length rePackingGroup2 txt mt hm
  have hgs : mt.gs = [some g] := list_len1_get mt.gs (some g) hlen hget
  refine ⟨g, hgs, capOK_pgBody_group rePackingGroup2.re g hcap ?_⟩
  simp [rePackingGroup2, seqL, capOK]

theorem dropWhile_eq_self_of_all (p : Char → Bool) (l : List Char)
    (h : ∀ c ∈ l, p c = false) : l.dropWhile p = l := by
  cases l with
  | nil => rfl
  | cons c rest =>
    rw [List.dropWhile_cons]
    rw [h c (by simp)]
    simp

theorem pyStrip_eq_self_of_all (l : List Char)
    (h : ∀ c ∈ l, isPySpace c = false) : pyStrip l = l := by
  unfold pyStrip
  rw [dropWhile_eq_self_of_all isPySpace l h]
  rw [dropWhile_eq_self_of_all isPySpace l.reverse (by intro c hc; exact h c (by simpa using hc))]
  simp

theorem pyRstripJunk_eq_self_of_all (l : List Char)
    (h : ∀ c ∈ l, isJunk c = false) : pyRstripJunk l = l := by
  unfold pyRstripJunk
  rw [dropWhile_eq_self_of_all isJunk l.reverse (by intro c hc; exact h c (by simpa using hc))]
  simp

theorem find_first_pg (txt v : List Char)
    (h : find_first patterns_packing_group txt = some v) :
    1 ≤ v.length ∧ v.length ≤ 3 ∧ ∀ c ∈ v, c = 'I' ∨ c = 'i' := by
  unfold patterns_packing_group find_first PyPattern.searchF at h
  cases hp : pysearch rePackingGroup txt with
  | none =>
    rw [hp] at h
    simp [find_first] at h
  | some mt =>
    rw [hp] at h
    dsimp only at h
    obtain ⟨g, hgs, h1, h3, hch⟩ := pg_capture_shape txt mt hp
    have hne : g.isEmpty = false := by
      cases g with
      | nil => simp at h1
      | cons a r => rfl
    rw [hgs] at h
    simp only [List.filterMap_cons, List.filterMap_nil, id, List.filter_cons,
      List.filter_nil, hne, Bool.not_false, if_true, List.getLast?_singleton,
      Option.some.injEq] at h
    have hsp : pyStrip g = g := by
      refine pyStrip_eq_self_of_all g ?_
      intro c hc
      rcases hch c hc with rfl | rfl <;> decide
    have hjk : pyRstripJunk g = g := by
      refine pyRstripJunk_eq_self_of_all g ?_
      intro c hc
      rcases hch c hc with rfl | rfl <;> decide
    rw [hsp, hjk] at h
    rw [← h]
    exact ⟨h1, h3, hch⟩

theorem pyUpper_iI (g : List Char) (hch : ∀ c ∈ g, c = 'I' ∨ c = 'i') :
    (pyUpper g).length = g.length ∧ ∀ c ∈ pyUpper g, c = 'I' ∨ c = 'i' := by
  constructor
  · simp [pyUpper]
  · intro c hc
    unfold pyUpper at hc
    obtain ⟨d, hd, hdc⟩ := List.mem_map.mp hc
    rcases hch d hd with rfl | rfl
    · left
      rw [← hdc]
      decide
    · left
      rw [← hdc]
      decide

/-- C9 (counterexample): the direct pattern pass does not upper-case its
capture, so `extract_fields` can store a lowercase packing group: on
`"Packing Group: ii"` the field holds `"ii"`, which is none of `"I"`,
`"II"`, `"III"`. -/
theorem extract_fields_packing_group_lowercase :
    (extract_fields "Packing Group: ii").packing_group = some "ii" ∧
    "ii" ≠ "I" ∧ "ii" ≠ "II" ∧ "ii" ≠ "III" := by
  refine ⟨by decide, by decide, by decide, by decide⟩

/-- C9 (amended): for every input text the `packing_group` field of the
assembled record is either unset or a non-empty string of at most three
characters, each `I` or `i` (the case-insensitive match of `I{1,3}|II|III`);
the inference pass upper-cases its result, but the direct pass stores the
capture as matched. -/
theorem extract_fields_packing_group_shape (t : String) :
    (extract_fields t).packing_group = none ∨
    ∃ s : String, (extract_fields t).packing_group = some s ∧
      1 ≤ s.length ∧ s.length ≤ 3 ∧ ∀ c ∈ s.data, c = 'I' ∨ c = 'i' := by
  have hred : ∃ r : ParsedRecord,
      (extract_fields t).packing_group =
        (infer_flags r (normalize_whitespace t.toList)).packing_group ∧
      r.packing_group =
        (find_first patterns_packing_group (normalize_whitespace t.toList)).map String.mk := by
    unfold extract_fields
    exact ⟨_, rfl, rfl⟩
  obtain ⟨r, hre, hrp⟩ := hred
  rw [hre]
  unfold infer_flags
  have hdgpg : (inferDG (inferHaz r (normalize_whitespace t.toList))
      (normalize_whitespace t.toList)).packing_group = r.packing_group := by
    rw [(infer_stage_cross (inferHaz r (normalize_whitespace t.toList))
      (normalize_whitespace t.toList)).2.2.2.2.1,
      (infer_stage_cross r (normalize_whitespace t.toList)).2.2.1]
  cases hf : find_first patterns_packing_group (normalize_whitespace t.toList) with
  | some v =>
    obtain ⟨h1, h3, hch⟩ := find_first_pg (normalize_whitespace t.toList) v hf
    have hset : (inferDG (inferHaz r (normalize_whitespace t.toList))
        (normalize_whitespace t.toList)).packing_group = some (String.mk v) := by
      rw [hdgpg, hrp, hf]
      rfl
    right
    refine ⟨String.mk v, ?_, h1, h3, hch⟩
    unfold inferPG
    rw [hset]
    have hne : pyFalsy (some (String.mk v)) = false := by
      simp only [pyFalsy, decide_eq_false_iff_not]
      intro hmk
      have hv : v = [] := congrArg String.data hmk
      rw [hv] at h1
      simp at h1
    rw [hne]
    simp only [Bool.false_eq_true, if_false]
    exact hset
  | none =>
    have hnone : (inferDG (inferHaz r (normalize_whitespace t.toList))
        (normalize_whitespace t.toList)).packing_group = none := by
      rw [hdgpg, hrp, hf]
      rfl
    unfold inferPG
    rw [hnone]
    simp only [pyFalsy, if_true]
    cases hp2 : pysearch rePackingGroup2 (normalize_whitespace t.toList) with
    | none =>
      left
      exact hnone
    | some mt =>
      dsimp only
      obtain ⟨g, hgs, h1, h3, hch⟩ := pg2_capture_shape (normalize_whitespace t.toList) mt hp2
      rw [hgs]
      right
      obtain ⟨hlen, hch2⟩ := pyUpper_iI g hch
      refine ⟨String.mk (pyUpper g), rfl, ?_, ?_, hch2⟩
      · rw [show (String.mk (pyUpper g)).length = (pyUpper g).length from rfl, hlen]
        exact h1
      · rw [show (String.mk (pyUpper g)).length = (pyUpper g).length from rfl, hlen]
        exact h3

theorem ofNat_digit_toNat (n : Nat) (h : n ≤ 9) : (Char.ofNat (48 + n)).toNat = 48 + n := by
  interval_cases n <;> decide

theorem dval_ofNat (n : Nat) (h : n ≤ 9) : dval (Char.ofNat (48 + n)) = n := by
  unfold dval
  rw [ofNat_digit_toNat n h]
  omega

theorem isDigitC_ofNat (n : Nat) (h : n ≤ 9) : isDigitC (Char.ofNat (48 + n)) = true := by
  unfold isDigitC
  rw [ofNat_digit_toNat n h]
  exact decide_eq_true (by omega)

theorem dayTok_pad2 (d : Nat) (h1 : 1 ≤ d) (h2 : d ≤ 31) (rest : List Char) :
    dayTok (pad2 d ++ rest) = some (d, rest) := by
  interval_cases d <;> rfl

theorem monTok_pad2 (m : Nat) (h1 : 1 ≤ m) (h2 : m ≤ 12) (rest : List Char) :
    monTok (pad2 m ++ rest) = some (m, rest) := by
  interval_cases m <;> rfl

theorem y4Tok_pad4 (y : Nat) (h : y ≤ 9999) (rest : List Char) :
    y4Tok (pad4 y ++ rest) = some (y, rest) := by
  have b1 : y / 1000 ≤ 9 := by omega
  have b2 : y / 100 % 10 ≤ 9 := by omega
  have b3 : y / 10 % 10 ≤ 9 := by omega
  have b4 : y % 10 ≤ 9 := by omega
  simp only [pad4, List.cons_append, List.nil_append, y4Tok]
  rw [isDigitC_ofNat _ b1, isDigitC_ofNat _ b2, isDigitC_ofNat _ b3, isDigitC_ofNat _ b4]
  simp only [Bool.and_self, if_true]
  rw [dval_ofNat _ b1, dval_ofNat _ b2, dval_ofNat _ b3, dval_ofNat _ b4]
  have hv : 1000 * (y / 1000) + 100 * (y / 100 % 10) + 10 * (y / 10 % 10) + y % 10 = y := by
    omega
  rw [hv]

theorem litTok_cons (c : Char) (r : List Char) : litTok c (c :: r) = some r := by
  unfold litTok
  dsimp only
  rw [if_pos rfl]

theorem daysInMonth_le_31 (y m : Nat) : daysInMonth y m ≤ 31 := by
  unfold daysInMonth
  split_ifs <;> omega

theorem datetimeValid_bounds (y m d : Nat) (h : datetimeValid y m d = true) :
    1 ≤ y ∧ y ≤ 9999 ∧ 1 ≤ m ∧ m ≤ 12 ∧ 1 ≤ d ∧ d ≤ 31 := by
  unfold datetimeValid at h
  simp only [Bool.and_eq_true, decide_eq_true_eq] at h
  have := daysInMonth_le_31 y m
  omega

theorem fmt_dmY_render (y m d : Nat) (h : datetimeValid y m d = true) :
    fmt_dmY (renderDMY y m d) = some (y, m, d) := by
  obtain ⟨hy1, hy2, hm1, hm2, hd1, hd2⟩ := datetimeValid_bounds y m d h
  unfold renderDMY fmt_dmY
  rw [dayTok_pad2 d hd1 hd2]
  dsimp only
  rw [litTok_cons]
  dsimp only
  rw [monTok_pad2 m hm1 hm2]
  dsimp only
  rw [litTok_cons]
  dsimp only
  rw [← List.append_nil (pad4 y), y4Tok_pad4 y hy2 []]

theorem tryFormats_render (y m d : Nat) (h : datetimeValid y m d = true) :
    tryFormats (renderDMY y m d) = some (y, m, d) := by
  unfold tryFormats
  rw [fmt_dmY_render y m d h]
  unfold firstValidFormat
  dsimp only
  rw [if_pos h]

theorem digit_clean (n : Nat) (h : n ≤ 9) :
    isPySpace (Char.ofNat (48 + n)) = false ∧ Char.ofNat (48 + n) ≠ '-' := by
  constructor
  · unfold isPySpace
    rw [ofNat_digit_toNat n h]
    exact decide_eq_false (by omega)
  · intro he
    have h2 := congrArg Char.toNat he
    rw [ofNat_digit_toNat n h] at h2
    have h3 : ('-' : Char).toNat = 45 := rfl
    rw [h3] at h2
    omega

theorem renderDMY_chars (y m d : Nat) (hy : y ≤ 9999) (hm : m ≤ 12) (hd : d ≤ 31) :
    ∀ c ∈ renderDMY y m d, isPySpace c = false ∧ c ≠ '-' := by
  intro c hc
  simp only [renderDMY, pad2, pad4, List.mem_append, List.mem_cons,
    List.mem_singleton, List.not_mem_nil, or_false] at hc
  have hsl : isPySpace '/' = false ∧ ('/' : Char) ≠ '-' := by decide
  rcases hc with (h | h) | h | (h | h) | h | h | h | h | h <;>
    first
      | (rw [h]; exact hsl)
      | (rw [h]; exact digit_clean _ (by omega))

theorem renderDMY_ne_nil (y m d : Nat) : renderDMY y m d ≠ [] := by
  simp [renderDMY, pad2]

theorem pyReplaceHyphen_eq_self : ∀ l : List Char, (∀ c ∈ l, c ≠ '-') →
    pyReplaceHyphen l = l := by
  intro l
  induction l with
  | nil => intro _; rfl
  | cons c rest ih =>
    intro h
    have hr := ih (fun x hx => h x (by simp [hx]))
    unfold pyReplaceHyphen at hr ⊢
    simp only [List.map_cons]
    rw [if_neg (h c (by simp)), hr]

theorem parse_date_render (y m d : Nat) (h : datetimeValid y m d = true) :
    parse_date (some (String.mk (renderDMY y m d))) = some (String.mk (renderDMY y m d)) := by
  obtain ⟨hy1, hy2, hm1, hm2, hd1, hd2⟩ := datetimeValid_bounds y m d h
  have hch := renderDMY_chars y m d hy2 hm2 hd2
  have hne : String.mk (renderDMY y m d) ≠ "" := by
    intro he
    exact renderDMY_ne_nil y m d (congrArg String.data he)
  unfold parse_date
  dsimp only
  rw [if_neg hne]
  have hs : pyStrip (String.mk (renderDMY y m d)).toList = renderDMY y m d :=
    pyStrip_eq_self_of_all _ (fun c hc => (hch c hc).1)
  rw [hs, pyReplaceHyphen_eq_self _ (fun c hc => (hch c hc).2)]
  unfold pdCore
  rw [tryFormats_render y m d h]

theorem isPySpace_replace (c : Char) :
    isPySpace (if c = '-' then '/' else c) = isPySpace c := by
  by_cases hc : c = '-'
  · rw [if_pos hc, hc]
    decide
  · rw [if_neg hc]

theorem dropWhile_replace_comm (l : List Char) :
    List.dropWhile isPySpace (pyReplaceHyphen l) =
      pyReplaceHyphen (List.dropWhile isPySpace l) := by
  unfold pyReplaceHyphen
  rw [List.dropWhile_map]
  rw [show (isPySpace ∘ fun c => if c = '-' then '/' else c) = isPySpace from
    funext fun c => isPySpace_replace c]

theorem strip_replace_comm (l : List Char) :
    pyStrip (pyReplaceHyphen l) = pyReplaceHyphen (pyStrip l) := by
  unfold pyStrip
  rw [dropWhile_replace_comm]
  unfold pyReplaceHyphen
  rw [← List.map_reverse, List.dropWhile_map]
  rw [show (isPySpace ∘ fun c => if c = '-' then '/' else c) = isPySpace from
    funext fun c => isPySpace_replace c]
  rw [← List.map_reverse]

theorem dropWhile_head_false (p : Char → Bool) (a : Char) (t : List Char)
    (h : List.dropWhile p (a :: t) = a :: t) : p a = false := by
  cases hB : p a with
  | false => rfl
  | true =>
    rw [List.dropWhile_cons, hB, if_pos rfl] at h
    have h2 := congrArg List.length h
    have h3 := (List.dropWhile_sublist (l := t) p).length_le
    simp only [List.length_cons] at h2
    omega

theorem rdropWhile_head_stable (a : Char) (t : List Char)
    (hpa : isPySpace a = false) :
    List.dropWhile isPySpace (List.rdropWhile isPySpace (a :: t)) =
      List.rdropWhile isPySpace (a :: t) := by
  cases hr : List.rdropWhile isPySpace (a :: t) with
  | nil => rfl
  | cons b s =>
    have hpre := List.rdropWhile_prefix isPySpace (a :: t)
    rw [hr] at hpre
    have hba : b = a := (List.cons_prefix_cons.mp hpre).1
    rw [List.dropWhile_cons, hba, hpa, if_neg (by simp)]

theorem pyStrip_idem (l : List Char) : pyStrip (pyStrip l) = pyStrip l := by
  have hsl : List.dropWhile isPySpace (pyStrip l) = pyStrip l := by
    cases hc : List.dropWhile isPySpace l with
    | nil =>
      have h0 : pyStrip l = [] := by
        unfold pyStrip
        rw [hc]
        rfl
      rw [h0]
      rfl
    | cons a t =>
      have hpa : isPySpace a = false := by
        refine dropWhile_head_false isPySpace a t ?_
        rw [← hc]
        exact List.dropWhile_idempotent _ _
      have h2 : pyStrip l = List.rdropWhile isPySpace (a :: t) := by
        unfold pyStrip
        rw [hc]
        rfl
      rw [h2]
      exact rdropWhile_head_stable a t hpa
  show List.rdropWhile isPySpace (List.dropWhile isPySpace (pyStrip l)) = pyStrip l
  rw [hsl]
  show List.rdropWhile isPySpace
      (List.rdropWhile isPySpace (List.dropWhile isPySpace l)) = pyStrip l
  rw [List.rdropWhile_idempotent]
  rfl

theorem replace_no_hyphen (l : List Char) : ∀ c ∈ pyReplaceHyphen l, c ≠ '-' := by
  intro c hc
  unfold pyReplaceHyphen at hc
  rw [List.mem_map] at hc
  obtain ⟨x, _, hx⟩ := hc
  by_cases hxe : x = '-'
  · rw [if_pos hxe] at hx
    rw [← hx]
    decide
  · rw [if_neg hxe] at hx
    rw [← hx]
    exact hxe

theorem firstValidFormat_valid : ∀ (L : List (Option (Nat × Nat × Nat))) (y m d : Nat),
    firstValidFormat L = some (y, m, d) → datetimeValid y m d = true := by
  intro L
  induction L with
  | nil =>
    intro y m d h
    exact absurd h (by simp [firstValidFormat])
  | cons o rest ih =>
    intro y m d h
    unfold firstValidFormat at h
    cases o with
    | none => exact ih y m d h
    | some t =>
      obtain ⟨a, b, c⟩ := t
      dsimp only at h
      by_cases hv : datetimeValid a b c = true
      · rw [if_pos hv] at h
        simp only [Option.some.injEq, Prod.mk.injEq] at h
        obtain ⟨h3, h4, h5⟩ := h
        subst h3 h4 h5
        exact hv
      · rw [if_neg hv] at h
        exact ih y m d h

theorem pdCore_cases (rc : List Char) :
    (∃ y m d : Nat, datetimeValid y m d = true ∧ pdCore rc = renderDMY y m d) ∨
      pdCore rc = rc := by
  unfold pdCore
  cases htf : tryFormats rc with
  | some t =>
    obtain ⟨y, m, d⟩ := t
    left
    refine ⟨y, m, d, ?_, rfl⟩
    unfold tryFormats at htf
    exact firstValidFormat_valid _ y m d htf
  | none =>
    cases hps : pysearch reDateLoose rc with
    | none => right; rfl
    | some mt =>
      obtain ⟨g0, gs⟩ := mt
      dsimp only
      cases gs with
      | nil => right; rfl
      | cons o1 t1 =>
        cases o1 with
        | none => right; rfl
        | some ds =>
          cases t1 with
          | nil => right; rfl
          | cons o2 t2 =>
            cases o2 with
            | none => right; rfl
            | some ms =>
              cases t2 with
              | nil => right; rfl
              | cons o3 t3 =>
                cases o3 with
                | none => right; rfl
                | some ys =>
                  cases t3 with
                  | cons o4 t4 => right; rfl
                  | nil =>
                    show _ ∨ (if datetimeValid
                        (if ys.length = 2 then digitsVal ('2' :: '0' :: ys) else digitsVal ys)
                        (digitsVal ms) (digitsVal ds) = true then
                          renderDMY (if ys.length = 2 then digitsVal ('2' :: '0' :: ys)
                            else digitsVal ys) (digitsVal ms) (digitsVal ds)
                        else rc) = rc
                    by_cases hv : datetimeValid
                        (if ys.length = 2 then digitsVal ('2' :: '0' :: ys) else digitsVal ys)
                        (digitsVal ms) (digitsVal ds) = true
                    · left
                      exact ⟨_, _, _, hv, if_pos hv⟩
                    · right
                      exact if_neg hv

/-- C7 (counterexample): `parse_date` is not idempotent on all non-null
strings: on `" "` the cleaned string is empty and every attempt fails, so
the call degrades to passthrough of the cleaned string and returns `""`;
feeding that back in hits the falsiness guard and returns `None`. -/
theorem parse_date_not_idempotent :
    parse_date (some " ") = some "" ∧
    parse_date (parse_date (some " ")) = none ∧
    parse_date (parse_date (some " ")) ≠ parse_date (some " ") := by
  refine ⟨by decide, by decide, by decide⟩

/-- C7 (amended): a canonical `DD/MM/YYYY` rendering of a constructible
calendar date reparses to itself, and `parse_date` is idempotent on every
input string whose stripped form is non-empty; the sole failure of
idempotence is whitespace-only input, where the first pass returns the
empty cleaned string and the second pass maps that falsy value to `None`. -/
theorem parse_date_amended :
    (∀ y m d : Nat, datetimeValid y m d = true →
        parse_date (some (String.mk (renderDMY y m d))) =
          some (String.mk (renderDMY y m d))) ∧
    (∀ s : String, pyStrip s.toList ≠ [] →
        parse_date (parse_date (some s)) = parse_date (some s)) := by
  constructor
  · exact parse_date_render
  · intro s h
    have hs : s ≠ "" := by
      intro he
      apply h
      rw [he]
      rfl
    have h1 : parse_date (some s) =
        some (String.mk (pdCore (pyReplaceHyphen (pyStrip s.toList)))) := by
      unfold parse_date
      dsimp only
      rw [if_neg hs]
    rw [h1]
    have hstab : pyStrip (pyReplaceHyphen (pyStrip s.toList)) =
        pyReplaceHyphen (pyStrip s.toList) := by
      rw [strip_replace_comm, pyStrip_idem]
    have hnh := replace_no_hyphen (pyStrip s.toList)
    have hnn : pyReplaceHyphen (pyStrip s.toList) ≠ [] := by
      intro he
      apply h
      unfold pyReplaceHyphen at he
      exact List.map_eq_nil.mp he
    rcases pdCore_cases (pyReplaceHyphen (pyStrip s.toList)) with ⟨y, m, d, hv, he⟩ | he
    · rw [he]
      exact parse_date_render y m d hv
    · rw [he]
      have hne2 : String.mk (pyReplaceHyphen (pyStrip s.toList)) ≠ "" := by
        intro h2
        exact hnn (congrArg String.data h2)
      unfold parse_date
      dsimp only
      rw [if_neg hne2]
      have hx : pyStrip (String.mk (pyReplaceHyphen (pyStrip s.toList))).toList =
          pyReplaceHyphen (pyStrip s.toList) := hstab
      rw [hx, pyReplaceHyphen_eq_self _ hnh, he]

/-- The amended C7 statement at concrete inputs: the canonical date
`"12/04/2023"` reparses to itself, and `parse_date` is idempotent on the
non-blank input `"12-04-23"`. -/
theorem parse_date_amended_witness :
    parse_date (some "12/04/2023") = some "12/04/2023" ∧
    parse_date (parse_date (some "12-04-23")) = parse_date (some "12-04-23") := by
  constructor
  · have h := parse_date_amended.1 2023 4 12 (by decide)
    have he : String.mk (renderDMY 2023 4 12) = "12/04/2023" := by decide
    rw [he] at h
    exact h
  · exact parse_date_amended.2 "12-04-23" (by decide)
